import Mathlib

/-! TSDBNode: configuration resolver, recovery scan and partition registry.

A shallow embedding of `src/tsdb/TSDBNode.cc`.

* C++ `String` / `Buffer` are byte strings: `Bytes = List UInt8`.
* A raised exception is a value of `Error`; an operation that mutates the node
  returns the outcome together with the node as the exception leaves it, since
  a C++ exception does not undo the writes made before it.
* The external collaborators (`PartitionState::decode`, `Partition::reopen`,
  `Partition::create`) are parameters, bundled in `Collaborators`.
-/

namespace TSDB

/-- A C++ `String` or `Buffer`: a sequence of bytes. -/
abbrev Bytes := List UInt8

/-- The separator byte `'~'` (0x7E). -/
def tilde : UInt8 := 0x7E

/-- The reserved metadata marker byte 0x1B. -/
def metaMarker : UInt8 := 0x1b

/-- Exceptions raised in `TSDBNode.cc`, and those thrown by collaborators.
`noConfigFound` is `RAISEF(kIndexError, "no config found for stream key: '$0'", stream_key)`,
`invalidPartitionKey` is `RAISEF(kRuntimeError, "invalid partition key: $0", partition_key_ns)`,
`collaborator` is any exception thrown by code outside this file. -/
inductive Error where
  | noConfigFound (stream_key : Bytes)
  | invalidPartitionKey (partition_key_ns : Bytes)
  | collaborator (code : Nat)
  deriving DecidableEq, Repr

/-- The `StreamConfig` message: its `stream_key_prefix` and, as one opaque number,
the remaining settings it carries. -/
structure StreamConfig where
  stream_key_prefix : Bytes
  settings : Nat
  deriving DecidableEq, Repr

/-- Modelled from the spec: `StringUtil::beginsWith(str, prefix)` is declared outside
this source file; the spec reads it as "composite key is a byte-wise prefix of
candidate". -/
def StringUtil.beginsWith (str pre : Bytes) : Bool :=
  pre.isPrefixOf str

/-- Modelled from the spec: `StringUtil::find(str, chr)` is declared outside this source
file; it gives the offset of the first occurrence of `chr` ("split the key at the
first `~` byte"), `none` standing for `String::npos`. -/
def StringUtil.find : Bytes → UInt8 → Option Nat
  | [], _ => none
  | b :: bs, chr => if b = chr then some 0 else (StringUtil.find bs chr).map (· + 1)

/-- One iteration of the loop of `configFor` on the entry `cfg`, acting on the
local variables `(config, match_len)`. -/
def configFor.step {α : Type} (stream_ns_key : Bytes) (st : Option α × Nat)
    (cfg : Bytes × α) : Option α × Nat :=
  if !StringUtil.beginsWith stream_ns_key cfg.1 then st
  else if cfg.1.length > st.2 then (some cfg.2, cfg.1.length)
  else st

/-- The function `TSDBNode::configFor` over the list `configs_`. The type `α` is what an
entry stores (the owned `StreamConfig`); `none` is the null pointer. -/
def configFor {α : Type} (configs_ : List (Bytes × α)) (stream_ns stream_key : Bytes) :
    Except Error α :=
  let stream_ns_key := stream_ns ++ [tilde] ++ stream_key
  match (configs_.foldl (configFor.step stream_ns_key) (none, 0)).1 with
  | none => .error (.noConfigFound stream_key)
  | some config => .ok config

/-- The function `TSDBNode::configurePrefix`: appends `(stream_ns + "~" + prefix, copy of config)`. -/
def configurePrefix (configs_ : List (Bytes × StreamConfig)) (stream_ns : Bytes)
    (config : StreamConfig) : List (Bytes × StreamConfig) :=
  let stream_ns_key := stream_ns ++ [tilde] ++ config.stream_key_prefix
  configs_ ++ [(stream_ns_key, config)]

/-- Modelled from the spec: `SHA1Hash` is declared outside this source file; it is the
spec's partition key, "a fixed-length content identifier", handled as `partition_key_bytes`.
`SHA1Hash(data, size)` keeps the `size` bytes at `data`; `data()`/`size()` give them back. -/
structure SHA1Hash where
  bytes : Bytes
  deriving DecidableEq, Repr

/-- Modelled from the spec: the type of `partitions_` is declared in `tsdb/TSDBNode.h`,
outside this source file: "mapping from composite key → PartitionHandle". It is kept as
the list of its (key, handle) pairs, in order of insertion, at most one per key. -/
abbrev Registry (Handle : Type) := List (Bytes × Handle)

/-- The call `partitions_.find(key)`: the handle stored under `key`, `none` for `end()`. -/
def Registry.find {Handle : Type} : Registry Handle → Bytes → Option Handle
  | [], _ => none
  | (k, h) :: rest, key => if k = key then some h else Registry.find rest key

/-- The call `partitions_.emplace(key, partition)` of a unique-key associative container
of the C++ standard library: the pair is inserted only if no element with that key
exists; an existing element is left as it is. -/
def Registry.emplace {Handle : Type} (partitions_ : Registry Handle) (key : Bytes)
    (partition : Handle) : Registry Handle :=
  match Registry.find partitions_ key with
  | some _ => partitions_
  | none => partitions_ ++ [(key, partition)]

/-- The external collaborators of the recovery scan and of the create path:
`PartitionState::decode` on the row's value, the field `state.stream_key`,
`Partition::reopen(partition_key, state, config, &noderef_)` and
`Partition::create(partition_key, stream_key, config, &noderef_)`. Each call may throw. -/
structure Collaborators (State Handle : Type) where
  decode : Bytes → Except Error State
  stream_key : State → Bytes
  reopen : SHA1Hash → State → StreamConfig → Except Error Handle
  create : SHA1Hash → Bytes → StreamConfig → Except Error Handle

/-- The members of `TSDBNode` that the resolver and the registry use. -/
structure TSDBNode (Handle : Type) where
  configs_ : List (Bytes × StreamConfig)
  partitions_ : Registry Handle

/-- A row of the persistent index as the cursor yields it: `(key, value)`. -/
abbrev Row := Bytes × Bytes

/-- The body of the loop of `TSDBNode::reopenPartitions` for one row: the outcome
(`ok` to go on with the next row, or the exception raised) and the node after it. -/
def reopenPartitions.row {State Handle : Type} (env : Collaborators State Handle)
    (node : TSDBNode Handle) (kv : Row) : Except Error Unit × TSDBNode Handle :=
  let partition_key_ns := kv.1
  if partition_key_ns.length = 0 then (.ok (), node)
  else if partition_key_ns.head? = some metaMarker then (.ok (), node)
  else
    match StringUtil.find partition_key_ns tilde with
    | none => (.error (.invalidPartitionKey partition_key_ns), node)
    | some tsdb_namespace_off =>
      let tsdb_namespace := partition_key_ns.take tsdb_namespace_off
      let partition_key : SHA1Hash :=
        ⟨(partition_key_ns.drop (tsdb_namespace_off + 1)).take
          (partition_key_ns.length - tsdb_namespace_off - 1)⟩
      match env.decode kv.2 with
      | .error e => (.error e, node)
      | .ok state =>
        match configFor node.configs_ tsdb_namespace (env.stream_key state) with
        | .error e => (.error e, node)
        | .ok config =>
          match env.reopen partition_key state config with
          | .error e => (.error e, node)
          | .ok partition =>
            (.ok (), { node with
              partitions_ := Registry.emplace node.partitions_ partition_key_ns partition })

/-- The function `TSDBNode::reopenPartitions` on the rows the cursor yields (`getFirst`, then
`getNext` until it returns false), in cursor order. The counter `i` only tells the first
iteration from the others. An exception leaves the loop at once. -/
def reopenPartitions {State Handle : Type} (env : Collaborators State Handle) :
    TSDBNode Handle → List Row → Except Error Unit × TSDBNode Handle
  | node, [] => (.ok (), node)
  | node, kv :: rest =>
    match reopenPartitions.row env node kv with
    | (.ok (), node') => reopenPartitions env node' rest
    | (.error e, node') => (.error e, node')

/-- A configuration list built only by calls to `configurePrefix`, starting from the empty
list of a new node: one call per `(stream_ns, config)`, in order. -/
def configureAll (calls : List (Bytes × StreamConfig)) : List (Bytes × StreamConfig) :=
  calls.foldl (fun configs_ call => configurePrefix configs_ call.1 call.2) []

/-- A row that the recovery scan skips: an empty key, or a key whose first byte is 0x1B. -/
def skippedKey (key : Bytes) : Bool :=
  key.isEmpty || key.head? == some metaMarker

/-- The row `kv` is well formed and recoverable to `partition` under `configs_`: its key is
`ns ++ "~" ++ pk` with no `~` in `ns`, its value decodes to a state whose stream key
resolves under `ns`, and `Partition::reopen` on `(pk, state, config)` gives `partition`. -/
def ReopensTo {State Handle : Type} (env : Collaborators State Handle)
    (configs_ : List (Bytes × StreamConfig)) (kv : Row) (partition : Handle) : Prop :=
  ∃ (ns pk : Bytes) (state : State) (config : StreamConfig),
    kv.1 = ns ++ tilde :: pk ∧ tilde ∉ ns ∧ env.decode kv.2 = .ok state ∧
    configFor configs_ ns (env.stream_key state) = .ok config ∧
    env.reopen ⟨pk⟩ state config = .ok partition

/-! ### The create path, the transaction of the scan, and `start` -/

/-- Calls that the node makes on its collaborators, in the order in which it makes them.
The calls on the persistent index are those of the transaction and its cursor;
`startTransaction` carries its argument. Modelled from the spec: the index interface is
declared outside this source file; its argument of `startTransaction` is `readOnly`
("`startTransaction(readOnly) -> Txn`"), and `txnCommit` and `indexWrite` stand for its
writing calls ("durable commits"), none of which this source file makes.
`configFor` and `partitionCreate` are the calls of `findOrCreatePartition`; the worker
events are `new CompactionWorker(&noderef_)`, `compaction_workers_.back()->start()` and
the same for replication. -/
inductive Event where
  | startTransaction (readonly : Bool)
  | getCursor
  | getFirst
  | getNext
  | cursorClose
  | txnAbort
  | txnCommit
  | indexWrite (key value : Bytes)
  | configFor (stream_ns stream_key : Bytes)
  | partitionCreate (partition_key : SHA1Hash) (stream_key : Bytes) (config : StreamConfig)
  | newCompactionWorker
  | startCompactionWorker
  | newReplicationWorker
  | startReplicationWorker
  deriving DecidableEq, Repr

/-- A call that writes to the persistent index. -/
def Event.writesIndex : Event → Bool
  | .txnCommit => true
  | .indexWrite _ _ => true
  | _ => false

/-- A call of `Partition::create`. -/
def Event.isCreate : Event → Bool
  | .partitionCreate _ _ _ => true
  | _ => false

/-- A call that constructs or starts a worker. -/
def Event.isWorker : Event → Bool
  | .newCompactionWorker => true
  | .startCompactionWorker => true
  | .newReplicationWorker => true
  | .startReplicationWorker => true
  | _ => false

/-- The registry key that `findOrCreatePartition` builds: `tsdb_namespace + "~"`, then the
bytes `partition_key.data()`, `partition_key.size()` appended. -/
def findOrCreatePartition.key (tsdb_namespace : Bytes) (partition_key : SHA1Hash) : Bytes :=
  tsdb_namespace ++ [tilde] ++ partition_key.bytes

/-- The function `TSDBNode::findOrCreatePartition`, its body run under `mutex_` as one step:
the handle returned or the exception raised, the node after the call, and the calls of
`configFor` and `Partition::create` made. -/
def findOrCreatePartition {State Handle : Type} (env : Collaborators State Handle)
    (node : TSDBNode Handle) (tsdb_namespace stream_key : Bytes) (partition_key : SHA1Hash) :
    Except Error Handle × TSDBNode Handle × List Event :=
  let partition_key_ns := findOrCreatePartition.key tsdb_namespace partition_key
  match Registry.find node.partitions_ partition_key_ns with
  | some partition => (.ok partition, node, [])
  | none =>
    match configFor node.configs_ tsdb_namespace stream_key with
    | .error e => (.error e, node, [.configFor tsdb_namespace stream_key])
    | .ok config =>
      match env.create partition_key stream_key config with
      | .error e =>
        (.error e, node,
          [.configFor tsdb_namespace stream_key,
           .partitionCreate partition_key stream_key config])
      | .ok partition =>
        (.ok partition,
          { node with
            partitions_ := Registry.emplace node.partitions_ partition_key_ns partition },
          [.configFor tsdb_namespace stream_key,
           .partitionCreate partition_key stream_key config])

/-- The bodies of `n` calls of `findOrCreatePartition` with the same arguments, run one
after the other as `mutex_` orders them: what each call returns, the node after the last,
and all calls made. -/
def findOrCreateRepeated {State Handle : Type} (env : Collaborators State Handle)
    (tsdb_namespace stream_key : Bytes) (partition_key : SHA1Hash) :
    TSDBNode Handle → Nat → List (Except Error Handle) × TSDBNode Handle × List Event
  | node, 0 => ([], node, [])
  | node, n + 1 =>
    let r := findOrCreatePartition env node tsdb_namespace stream_key partition_key
    let rs := findOrCreateRepeated env tsdb_namespace stream_key partition_key r.2.1 n
    (r.1 :: rs.1, rs.2.1, r.2.2 ++ rs.2.2)

/-- The operations of the node that the registry claims range over. -/
inductive Operation where
  | configurePrefix (stream_ns : Bytes) (config : StreamConfig)
  | reopenPartitions (rows : List Row)
  | findOrCreatePartition (tsdb_namespace stream_key : Bytes) (partition_key : SHA1Hash)

/-- The node after an operation, whether the operation returns or raises. -/
def Operation.run {State Handle : Type} (env : Collaborators State Handle)
    (node : TSDBNode Handle) : Operation → TSDBNode Handle
  | .configurePrefix stream_ns config =>
    { node with configs_ := TSDB.configurePrefix node.configs_ stream_ns config }
  | .reopenPartitions rows => (TSDB.reopenPartitions env node rows).2
  | .findOrCreatePartition tsdb_namespace stream_key partition_key =>
    (TSDB.findOrCreatePartition env node tsdb_namespace stream_key partition_key).2.1

/-- Lines 120 to 128 of `reopenPartitions`: the index key split at its first `~` into
`tsdb_namespace` and `partition_key`; `none` when `find` gives `String::npos`. -/
def reopenPartitions.split (partition_key_ns : Bytes) : Option (Bytes × SHA1Hash) :=
  match StringUtil.find partition_key_ns tilde with
  | none => none
  | some tsdb_namespace_off =>
    some (partition_key_ns.take tsdb_namespace_off,
      ⟨(partition_key_ns.drop (tsdb_namespace_off + 1)).take
        (partition_key_ns.length - tsdb_namespace_off - 1)⟩)

/-- The loop of `reopenPartitions` with the cursor calls: iteration `i` calls `getFirst` when
`i == 0` and `getNext` otherwise; the cursor yields the rows in order and then reports
the end, at which the loop breaks. -/
def reopenPartitions.loop {State Handle : Type} (env : Collaborators State Handle) :
    TSDBNode Handle → Nat → List Row → (Except Error Unit × TSDBNode Handle) × List Event
  | node, i, [] => ((.ok (), node), [if i = 0 then .getFirst else .getNext])
  | node, i, kv :: rest =>
    match reopenPartitions.row env node kv with
    | (.ok (), node') =>
      let r := reopenPartitions.loop env node' (i + 1) rest
      (r.1, (if i = 0 then Event.getFirst else Event.getNext) :: r.2)
    | (.error e, node') => ((.error e, node'), [if i = 0 then .getFirst else .getNext])

/-- The function `TSDBNode::reopenPartitions` with the calls it makes on the persistent index:
`startTransaction(false)` and `getCursor()` first, the cursor calls of the loop, and, when
the loop ends without an exception, `cursor->close()` and `txn->abort()`. -/
def reopenPartitions.logged {State Handle : Type} (env : Collaborators State Handle)
    (node : TSDBNode Handle) (rows : List Row) :
    (Except Error Unit × TSDBNode Handle) × List Event :=
  match reopenPartitions.loop env node 0 rows with
  | ((.ok (), node'), calls) =>
    ((.ok (), node'),
      [.startTransaction false, .getCursor] ++ calls ++ [.cursorClose, .txnAbort])
  | ((.error e, node'), calls) =>
    ((.error e, node'), [.startTransaction false, .getCursor] ++ calls)

/-- A worker object: the number of times its `start()` was called. -/
structure Worker where
  starts : Nat
  deriving DecidableEq, Repr

/-- The members `compaction_workers_` and `replication_workers_` of `TSDBNode`. -/
structure WorkerPools where
  compaction_workers_ : List Worker
  replication_workers_ : List Worker
  deriving DecidableEq, Repr

/-- The call `workers.back()->start()`. -/
def startBack (workers : List Worker) : List Worker :=
  match workers.reverse with
  | [] => []
  | w :: rest => rest.reverse ++ [⟨w.starts + 1⟩]

/-- The greatest value of the type `int` of the loop counters: 2^31 - 1. -/
def INT_MAX : Nat := 2147483647

/-- The first loop of `start`, `for (int i = 0; i < num_compaction_threads; ++i)`, from the
counter value `i` on. The counter is never negative, so its conversion to `size_t` in the
comparison keeps its value. The body constructs a compaction worker at the back of
`compaction_workers_` and starts it. `++i` on `INT_MAX` overflows the `int`, which is
undefined behaviour: the result is then `none`. -/
def start.compaction (num_compaction_threads : Nat) (pools : WorkerPools) (i : Nat) :
    Option (WorkerPools × List Event) :=
  if i < num_compaction_threads then
    if i = INT_MAX then none
    else
      match start.compaction num_compaction_threads
          { pools with compaction_workers_ := startBack (pools.compaction_workers_ ++ [⟨0⟩]) }
          (i + 1) with
      | none => none
      | some r => some (r.1, Event.newCompactionWorker :: Event.startCompactionWorker :: r.2)
  else some (pools, [])
termination_by num_compaction_threads - i

/-- The second loop of `start`, `for (int i = 0; i < num_replication_threads; ++i)`, from
the counter value `i` on. The body constructs a replication worker at the back of
`replication_workers_` and starts it. `++i` on `INT_MAX` overflows the `int`, which is
undefined behaviour: the result is then `none`. -/
def start.replication (num_replication_threads : Nat) (pools : WorkerPools) (i : Nat) :
    Option (WorkerPools × List Event) :=
  if i < num_replication_threads then
    if i = INT_MAX then none
    else
      match start.replication num_replication_threads
          { pools with replication_workers_ := startBack (pools.replication_workers_ ++ [⟨0⟩]) }
          (i + 1) with
      | none => none
      | some r => some (r.1, Event.newReplicationWorker :: Event.startReplicationWorker :: r.2)
  else some (pools, [])
termination_by num_replication_threads - i

/-- The function `TSDBNode::start` on the rows of the index: `reopenPartitions()`, whose
exception leaves `start` at once, then the two loops, each counting from `int i = 0`.
The thread counts are the `size_t` arguments. The result is `none` when a loop counter
overflows (undefined behaviour). -/
def start {State Handle : Type} (env : Collaborators State Handle) (node : TSDBNode Handle)
    (pools : WorkerPools) (rows : List Row)
    (num_compaction_threads num_replication_threads : Nat) :
    Option ((Except Error Unit × TSDBNode Handle × WorkerPools) × List Event) :=
  match reopenPartitions.logged env node rows with
  | ((.error e, node'), calls) => some ((.error e, node', pools), calls)
  | ((.ok (), node'), calls) =>
    match start.compaction num_compaction_threads pools 0 with
    | none => none
    | some c =>
      match start.replication num_replication_threads c.1 0 with
      | none => none
      | some r => some ((.ok (), node', r.1), calls ++ c.2 ++ r.2)

/-- The calls of `n` workers constructed one after the other, each started right after its
construction. -/
def workerCalls (new start : Event) : Nat → List Event
  | 0 => []
  | n + 1 => new :: start :: workerCalls new start n

/-! ### Concrete collaborators and inputs for the examples -/

/-- A handle that records what it was built from: the partition key, the stream key and
the configuration. -/
structure DemoHandle where
  partition_key : Bytes
  stream_key : Bytes
  config : StreamConfig
  deriving DecidableEq, Repr

/-- Collaborators for the examples: a value is the bytes of its stream key, and it decodes
unless it is empty; reopening and creating always succeed. -/
def demoEnv : Collaborators Bytes DemoHandle where
  decode := fun value => if value.isEmpty then .error (.collaborator 1) else .ok value
  stream_key := fun state => state
  reopen := fun pk state config => .ok ⟨pk.bytes, state, config⟩
  create := fun pk stream_key config => .ok ⟨pk.bytes, stream_key, config⟩

/-- The bytes of an ASCII text. -/
def ascii (s : String) : Bytes := s.toList.map (fun c => c.toNat.toUInt8)

/-- The configuration registered under `"a~x"` in the examples. -/
def cfgX : StreamConfig := ⟨ascii "x", 1⟩

/-- The configuration registered under `"a~xy"` in the examples. -/
def cfgXY : StreamConfig := ⟨ascii "xy", 2⟩

/-- The entries `"a~x"` and `"a~xy"`, registered in this order. -/
def demoConfigs : List (Bytes × StreamConfig) :=
  configureAll [(ascii "a", cfgX), (ascii "a", cfgXY)]

/-- The configuration with prefix `"events"` of the recovery examples. -/
def eventsCfg : StreamConfig := ⟨ascii "events", 7⟩

/-- The prefix `("ns1", "events")` registered on a new node. -/
def ns1Configs : List (Bytes × StreamConfig) :=
  configureAll [(ascii "ns1", eventsCfg)]

/-- A 20-byte partition key. -/
def k1 : Bytes := ascii "0123456789abcdefghij"

/-- A well-formed partition row: key `"ns1~" ++ k1`, state with stream key `"events-2024"`. -/
def ns1Row : Row := (ascii "ns1" ++ [tilde] ++ k1, ascii "events-2024")

/-- The handle that `Partition::reopen` gives for `ns1Row`. -/
def ns1Handle : DemoHandle := ⟨k1, ascii "events-2024", eventsCfg⟩

/-- A second row under the key of `ns1Row`, with another state. -/
def ns1RowAgain : Row := (ascii "ns1" ++ [tilde] ++ k1, ascii "events-2025")

/-- A metadata row: its key starts with 0x1B; it holds a `~` and a value that does not
decode. -/
def metaRow : Row := (metaMarker :: ascii "meta~x", [])

/-- A row whose key is not empty, does not start with 0x1B and has no `~`. -/
def corruptRow : Row := (ascii "ns2-corrupt", ascii "events-2024")

/-- A well-formed row of the namespace `"ns3"`, for which no prefix is registered. -/
def unresolvedRow : Row := (ascii "ns3" ++ [tilde] ++ k1, ascii "events-2024")

/-- Collaborators whose `Partition::create` always throws; the rest is as in `demoEnv`. -/
def noCreateEnv : Collaborators Bytes DemoHandle where
  decode := demoEnv.decode
  stream_key := demoEnv.stream_key
  reopen := demoEnv.reopen
  create := fun _ _ _ => .error (.collaborator 2)

/-- A node with the prefix `("ns1", "events")` registered and the partition of `ns1Row`
in its registry, as recovery leaves it. -/
def recoveredNode : TSDBNode DemoHandle :=
  ⟨ns1Configs, [(ascii "ns1" ++ [tilde] ++ k1, ns1Handle)]⟩

/-- A second 20-byte partition key. -/
def k2 : Bytes := ascii "ABCDEFGHIJ0123456789"

/-- Two registrations: the prefix `"x"` under the namespace `"a"` and the longer prefix
`"xy"` under the namespace `"b"`. -/
def twoNamespaces : List (Bytes × StreamConfig) :=
  [(ascii "a", cfgX), (ascii "b", cfgXY)]

end TSDB

namespace TSDB

/-! ## The resolver: `configFor` and `configurePrefix` -/

theorem beginsWith_iff (str pre : Bytes) :
    StringUtil.beginsWith str pre = true ↔ pre <+: str := by
  simp [StringUtil.beginsWith]

theorem step_of_no_match {α : Type} (cand : Bytes) (st : Option α × Nat) (cfg : Bytes × α)
    (h : ¬ cfg.1 <+: cand) : configFor.step cand st cfg = st := by
  have hb : StringUtil.beginsWith cand cfg.1 = false := by
    rw [← Bool.not_eq_true, beginsWith_iff]; exact h
  simp [configFor.step, hb]

theorem step_of_le {α : Type} (cand : Bytes) (st : Option α × Nat) (cfg : Bytes × α)
    (h : cfg.1.length ≤ st.2) : configFor.step cand st cfg = st := by
  unfold configFor.step
  split
  · rfl
  · rw [if_neg (by omega)]

theorem step_of_longer {α : Type} (cand : Bytes) (st : Option α × Nat) (cfg : Bytes × α)
    (hp : cfg.1 <+: cand) (h : st.2 < cfg.1.length) :
    configFor.step cand st cfg = (some cfg.2, cfg.1.length) := by
  have hb : StringUtil.beginsWith cand cfg.1 = true := (beginsWith_iff _ _).2 hp
  simp [configFor.step, hb, h]

/-- A scan over entries none of which is a longer match leaves `(config, match_len)` as it is. -/
theorem scan_unchanged {α : Type} (cand : Bytes) (l : List (Bytes × α)) (st : Option α × Nat)
    (h : ∀ e ∈ l, e.1 <+: cand → e.1.length ≤ st.2) :
    l.foldl (configFor.step cand) st = st := by
  induction l with
  | nil => rfl
  | cons e l ih =>
    have he : configFor.step cand st e = st := by
      by_cases hp : e.1 <+: cand
      · exact step_of_le cand st e (h e (List.mem_cons_self _ _) hp)
      · exact step_of_no_match cand st e hp
    rw [List.foldl_cons, he]
    exact ih (fun e' he' => h e' (List.mem_cons_of_mem _ he'))

/-- A scan over entries whose matches are all shorter than `n` keeps `match_len` below `n`. -/
theorem scan_len_lt {α : Type} (cand : Bytes) (n : Nat) (l : List (Bytes × α))
    (st : Option α × Nat) (hst : st.2 < n)
    (h : ∀ e ∈ l, e.1 <+: cand → e.1.length < n) :
    (l.foldl (configFor.step cand) st).2 < n := by
  induction l generalizing st with
  | nil => exact hst
  | cons e l ih =>
    rw [List.foldl_cons]
    apply ih _ _ (fun e' he' => h e' (List.mem_cons_of_mem _ he'))
    by_cases hp : e.1 <+: cand
    · by_cases hl : st.2 < e.1.length
      · rw [step_of_longer cand st e hp hl]
        exact h e (List.mem_cons_self _ _) hp
      · rw [step_of_le cand st e (by omega)]; exact hst
    · rw [step_of_no_match cand st e hp]; exact hst

/-- The scan puts the first of the longest matches into `config`. -/
theorem scan_first_longest {α : Type} (cand : Bytes) (l₁ l₂ : List (Bytes × α)) (k : Bytes)
    (v : α) (st : Option α × Nat) (hk : k <+: cand) (hst : st.2 < k.length)
    (h₁ : ∀ e ∈ l₁, e.1 <+: cand → e.1.length < k.length)
    (h₂ : ∀ e ∈ l₂, e.1 <+: cand → e.1.length ≤ k.length) :
    (l₁ ++ (k, v) :: l₂).foldl (configFor.step cand) st = (some v, k.length) := by
  rw [List.foldl_append, List.foldl_cons,
    step_of_longer cand _ (k, v) hk (scan_len_lt cand k.length l₁ st hst h₁)]
  exact scan_unchanged cand l₂ _ h₂

/-- What the scan does to `(config, match_len)`: nothing, when no match is longer than
`match_len`; otherwise it ends on the first of the longest matches. -/
theorem scan_cases {α : Type} (cand : Bytes) (l : List (Bytes × α)) (st : Option α × Nat) :
    (l.foldl (configFor.step cand) st = st ∧ ∀ e ∈ l, e.1 <+: cand → e.1.length ≤ st.2) ∨
    ∃ l₁ k v l₂, l = l₁ ++ (k, v) :: l₂ ∧ k <+: cand ∧ st.2 < k.length ∧
      l.foldl (configFor.step cand) st = (some v, k.length) ∧
      (∀ e ∈ l₁, e.1 <+: cand → e.1.length < k.length) ∧
      (∀ e ∈ l₂, e.1 <+: cand → e.1.length ≤ k.length) := by
  induction l generalizing st with
  | nil => exact Or.inl ⟨rfl, by simp⟩
  | cons e l ih =>
    by_cases hlong : e.1 <+: cand ∧ st.2 < e.1.length
    · obtain ⟨hp, hl⟩ := hlong
      have hstep := step_of_longer cand st e hp hl
      rcases ih (some e.2, e.1.length) with ⟨hsame, hall⟩ | ⟨l₁, k, v, l₂, rfl, hk, hlt, hres, h₁, h₂⟩
      · refine Or.inr ⟨[], e.1, e.2, l, rfl, hp, hl, ?_, by simp, hall⟩
        rw [List.foldl_cons, hstep, hsame]
      · refine Or.inr ⟨e :: l₁, k, v, l₂, rfl, hk, ?_, ?_, ?_, h₂⟩
        · simp only at hlt; omega
        · rw [List.foldl_cons, hstep, hres]
        · intro e' he' hp'
          rcases List.mem_cons.1 he' with rfl | he'
          · exact hlt
          · exact h₁ e' he' hp'
    · have hstep : configFor.step cand st e = st := by
        by_cases hp : e.1 <+: cand
        · exact step_of_le cand st e (Nat.le_of_not_lt (fun h => hlong ⟨hp, h⟩))
        · exact step_of_no_match cand st e hp
      have hle : e.1 <+: cand → e.1.length ≤ st.2 := fun hp =>
        Nat.le_of_not_lt (fun h => hlong ⟨hp, h⟩)
      rcases ih st with ⟨hsame, hall⟩ | ⟨l₁, k, v, l₂, rfl, hk, hlt, hres, h₁, h₂⟩
      · refine Or.inl ⟨by rw [List.foldl_cons, hstep, hsame], ?_⟩
        intro e' he' hp'
        rcases List.mem_cons.1 he' with rfl | he'
        · exact hle hp'
        · exact hall e' he' hp'
      · refine Or.inr ⟨e :: l₁, k, v, l₂, rfl, hk, hlt, ?_, ?_, h₂⟩
        · rw [List.foldl_cons, hstep, hres]
        · intro e' he' hp'
          rcases List.mem_cons.1 he' with rfl | he'
          · have := hle hp'; omega
          · exact h₁ e' he' hp'

/-- The two outcomes of `configFor`: the not-found error, when every matching key is
empty; or the value of the first of the longest matching entries. -/
theorem configFor_cases {α : Type} (l : List (Bytes × α)) (ns sk : Bytes) :
    (configFor l ns sk = .error (.noConfigFound sk) ∧
      ∀ e ∈ l, e.1 <+: ns ++ [tilde] ++ sk → e.1.length = 0) ∨
    ∃ l₁ k v l₂, l = l₁ ++ (k, v) :: l₂ ∧ k <+: ns ++ [tilde] ++ sk ∧ 0 < k.length ∧
      configFor l ns sk = .ok v ∧
      (∀ e ∈ l₁, e.1 <+: ns ++ [tilde] ++ sk → e.1.length < k.length) ∧
      (∀ e ∈ l₂, e.1 <+: ns ++ [tilde] ++ sk → e.1.length ≤ k.length) := by
  rcases scan_cases (ns ++ [tilde] ++ sk) l (none, 0) with
    ⟨hsame, hall⟩ | ⟨l₁, k, v, l₂, hl, hk, hlt, hres, h₁, h₂⟩
  · refine Or.inl ⟨by simp only [configFor, hsame], ?_⟩
    intro e he hp
    have := hall e he hp
    simpa using this
  · exact Or.inr ⟨l₁, k, v, l₂, hl, hk, hlt, by simp only [configFor, hres], h₁, h₂⟩

/-- The resolver returns the value of the first of the longest matching entries. -/
theorem configFor_first_longest {α : Type} (l₁ l₂ : List (Bytes × α)) (k : Bytes) (v : α)
    (ns sk : Bytes) (hk : k <+: ns ++ [tilde] ++ sk) (hpos : 0 < k.length)
    (h₁ : ∀ e ∈ l₁, e.1 <+: ns ++ [tilde] ++ sk → e.1.length < k.length)
    (h₂ : ∀ e ∈ l₂, e.1 <+: ns ++ [tilde] ++ sk → e.1.length ≤ k.length) :
    configFor (l₁ ++ (k, v) :: l₂) ns sk = .ok v := by
  simp only [configFor, scan_first_longest (ns ++ [tilde] ++ sk) l₁ l₂ k v (none, 0) hk hpos h₁ h₂]

/-- A resolver failure is always the not-found error for the queried stream key. -/
theorem configFor_error {α : Type} (l : List (Bytes × α)) (ns sk : Bytes) (e : Error)
    (h : configFor l ns sk = .error e) : e = .noConfigFound sk := by
  rcases configFor_cases l ns sk with ⟨herr, _⟩ | ⟨_, _, v, _, _, _, _, hok, _, _⟩
  · rw [herr] at h; cases h; rfl
  · rw [hok] at h; cases h

theorem configureAll_from (calls : List (Bytes × StreamConfig))
    (acc : List (Bytes × StreamConfig)) :
    calls.foldl (fun configs_ call => configurePrefix configs_ call.1 call.2) acc =
      acc ++ calls.map (fun call =>
        (call.1 ++ [tilde] ++ StreamConfig.stream_key_prefix call.2, call.2)) := by
  induction calls generalizing acc with
  | nil => simp
  | cons call calls ih =>
    rw [List.foldl_cons, ih]
    simp [configurePrefix]

/-- The list built by `configurePrefix` calls, entry by entry. -/
theorem configureAll_eq_map (calls : List (Bytes × StreamConfig)) :
    configureAll calls = calls.map (fun call =>
      (call.1 ++ [tilde] ++ StreamConfig.stream_key_prefix call.2, call.2)) := by
  simp [configureAll, configureAll_from]

/-- Every composite key registered by `configurePrefix` holds at least the `~`. -/
theorem configureAll_key_pos (calls : List (Bytes × StreamConfig)) :
    ∀ e ∈ configureAll calls, 0 < e.1.length := by
  intro e he
  rw [configureAll_eq_map] at he
  obtain ⟨call, _, rfl⟩ := List.mem_map.1 he
  simp

/-- With pairwise distinct composite keys, the resolver's result is the value of the one
entry that matches, is not empty, and is at least as long as every match. -/
theorem configFor_ok_iff_of_nodup {α : Type} (l : List (Bytes × α))
    (hnd : (l.map Prod.fst).Nodup) (ns sk : Bytes) (v : α) :
    configFor l ns sk = .ok v ↔
      ∃ k, (k, v) ∈ l ∧ k <+: ns ++ [tilde] ++ sk ∧ 0 < k.length ∧
        ∀ e ∈ l, e.1 <+: ns ++ [tilde] ++ sk → e.1.length ≤ k.length := by
  constructor
  · intro h
    rcases configFor_cases l ns sk with ⟨herr, _⟩ | ⟨l₁, k, v', l₂, rfl, hk, hpos, hok, h₁, h₂⟩
    · rw [herr] at h; cases h
    · rw [hok] at h
      cases h
      refine ⟨k, by simp, hk, hpos, ?_⟩
      intro e he hp
      rcases List.mem_append.1 he with he | he
      · exact Nat.le_of_lt (h₁ e he hp)
      · rcases List.mem_cons.1 he with rfl | he
        · exact Nat.le_refl _
        · exact h₂ e he hp
  · rintro ⟨k, hmem, hk, hpos, hmax⟩
    rcases configFor_cases l ns sk with ⟨_, hzero⟩ | ⟨l₁, k', v', l₂, hl, hk', _, hok, h₁, h₂⟩
    · have := hzero (k, v) hmem hk
      simp only at this; omega
    · have hmem' : (k', v') ∈ l := by rw [hl]; simp
      have hle : k.length ≤ k'.length := by
        rcases List.mem_append.1 (hl ▸ hmem) with he | he
        · exact Nat.le_of_lt (h₁ (k, v) he hk)
        · rcases List.mem_cons.1 he with he | he
          · rw [(Prod.mk.inj he).1]
          · exact h₂ (k, v) he hk
      have hge : k'.length ≤ k.length := hmax (k', v') hmem' hk'
      have hkk : k = k' :=
        (List.prefix_of_prefix_length_le hk hk' hle).eq_of_length (Nat.le_antisymm hle hge)
      have := List.inj_on_of_nodup_map hnd hmem hmem' hkk
      rw [hok, (Prod.mk.inj this).2]

/-! ### Claims on the resolver -/

/-- C1: whenever `configFor` returns a config, that config belongs to a registered entry
whose composite key is a byte-wise prefix of `namespace ++ "~" ++ stream_key`, and no
registered entry that is a prefix of that candidate has a strictly longer composite key. -/
theorem configFor_longest_match {α : Type} (configs_ : List (Bytes × α)) (ns sk : Bytes)
    (config : α) (h : configFor configs_ ns sk = .ok config) :
    ∃ k, (k, config) ∈ configs_ ∧ k <+: ns ++ [tilde] ++ sk ∧
      ∀ e ∈ configs_, e.1 <+: ns ++ [tilde] ++ sk → e.1.length ≤ k.length := by
  rcases configFor_cases configs_ ns sk with
    ⟨herr, _⟩ | ⟨l₁, k, v, l₂, rfl, hk, _, hok, h₁, h₂⟩
  · rw [herr] at h; cases h
  · rw [hok] at h
    cases h
    refine ⟨k, by simp, hk, ?_⟩
    intro e he hp
    rcases List.mem_append.1 he with he | he
    · exact Nat.le_of_lt (h₁ e he hp)
    · rcases List.mem_cons.1 he with rfl | he
      · exact Nat.le_refl _
      · exact h₂ e he hp

/-- Witness of C1: with entries `"a~x"` and `"a~xy"`, `configFor("a", "xyz")` returns the
config registered under `"a~xy"`, and the theorem applies to it. -/
theorem configFor_longest_match_witness :
    configFor demoConfigs (ascii "a") (ascii "xyz") = .ok cfgXY ∧
    (ascii "a~xy", cfgXY) ∈ demoConfigs ∧
    ∃ k, (k, cfgXY) ∈ demoConfigs ∧ k <+: ascii "a" ++ [tilde] ++ ascii "xyz" ∧
      ∀ e ∈ demoConfigs, e.1 <+: ascii "a" ++ [tilde] ++ ascii "xyz" →
        e.1.length ≤ k.length :=
  ⟨rfl, by decide, configFor_longest_match demoConfigs (ascii "a") (ascii "xyz") cfgXY rfl⟩

/-- C2: on a configuration list built only by calls to `configurePrefix`, `configFor` raises
its not-found error if and only if no registered composite key is a byte-wise prefix of
`namespace ++ "~" ++ stream_key`; it raises no other error, and it returns a config
whenever at least one entry matches. -/
theorem configFor_fails_iff_no_match (calls : List (Bytes × StreamConfig)) (ns sk : Bytes) :
    (configFor (configureAll calls) ns sk = .error (.noConfigFound sk) ↔
      ∀ e ∈ configureAll calls, ¬ e.1 <+: ns ++ [tilde] ++ sk) ∧
    (∀ err, configFor (configureAll calls) ns sk = .error err → err = .noConfigFound sk) ∧
    ((∃ e ∈ configureAll calls, e.1 <+: ns ++ [tilde] ++ sk) →
      ∃ config, configFor (configureAll calls) ns sk = .ok config) := by
  have hiff : configFor (configureAll calls) ns sk = .error (.noConfigFound sk) ↔
      ∀ e ∈ configureAll calls, ¬ e.1 <+: ns ++ [tilde] ++ sk := by
    constructor
    · intro h e he hp
      rcases configFor_cases (configureAll calls) ns sk with
        ⟨_, hzero⟩ | ⟨_, _, _, _, _, _, _, hok, _, _⟩
      · have := hzero e he hp
        have := configureAll_key_pos calls e he
        omega
      · rw [hok] at h; cases h
    · intro h
      rcases configFor_cases (configureAll calls) ns sk with
        ⟨herr, _⟩ | ⟨l₁, k, v, l₂, hl, hk, _, _, _, _⟩
      · exact herr
      · exact absurd hk (h (k, v) (by rw [hl]; simp))
  refine ⟨hiff, fun err h => configFor_error _ ns sk err h, ?_⟩
  rintro ⟨e, he, hp⟩
  cases hres : configFor (configureAll calls) ns sk with
  | ok config => exact ⟨config, rfl⟩
  | error err =>
    rw [configFor_error _ ns sk err hres] at hres
    exact absurd hp (hiff.1 hres e he)

/-- Witness of C2: with entries `"a~x"` and `"a~xy"`, no key is a prefix of `"a~w"` and
`configFor("a", "w")` fails with the not-found error. -/
theorem configFor_fails_iff_no_match_witness :
    (∀ e ∈ demoConfigs, ¬ e.1 <+: ascii "a" ++ [tilde] ++ ascii "w") ∧
    configFor demoConfigs (ascii "a") (ascii "w") = .error (.noConfigFound (ascii "w")) :=
  ⟨by decide,
   (configFor_fails_iff_no_match [(ascii "a", cfgX), (ascii "a", cfgXY)]
      (ascii "a") (ascii "w")).1.2 (by decide)⟩

/-- C3 (as the code has it): when two registered entries match the candidate with the same
greatest composite-key length, `configFor` returns the config of the first-registered of
them. After `configurePrefix(ns, c1)` then `configurePrefix(ns, c2)` with the same prefix,
`configFor(ns, stream_key)` for a stream key beginning with the prefix returns the copy of
`c1`, when no match at least as long was registered before them. -/
theorem configFor_tie_first_registered (configs_ : List (Bytes × StreamConfig))
    (ns sk : Bytes) (c1 c2 : StreamConfig)
    (hsame : StreamConfig.stream_key_prefix c1 = StreamConfig.stream_key_prefix c2)
    (hsk : StreamConfig.stream_key_prefix c1 <+: sk)
    (hshort : ∀ e ∈ configs_, e.1 <+: ns ++ [tilde] ++ sk →
      e.1.length < (ns ++ [tilde] ++ StreamConfig.stream_key_prefix c1).length) :
    configFor (configurePrefix (configurePrefix configs_ ns c1) ns c2) ns sk = .ok c1 := by
  have hk : ns ++ [tilde] ++ StreamConfig.stream_key_prefix c1 <+: ns ++ [tilde] ++ sk :=
    (List.prefix_append_right_inj _).2 hsk
  have hlist : configurePrefix (configurePrefix configs_ ns c1) ns c2 =
      configs_ ++ (ns ++ [tilde] ++ StreamConfig.stream_key_prefix c1, c1) ::
        [(ns ++ [tilde] ++ StreamConfig.stream_key_prefix c2, c2)] := by
    simp [configurePrefix]
  rw [hlist]
  apply configFor_first_longest configs_ _ _ c1 ns sk hk (by simp) hshort
  intro e he _
  rw [List.mem_singleton.1 he, hsame]

/-- Witness of C3 (as the code has it): two configs registered under `"a~x"`; a lookup of
`("a", "xyz")` gives the first. -/
theorem configFor_tie_first_registered_witness :
    configFor (configurePrefix (configurePrefix [] (ascii "a") ⟨ascii "x", 1⟩)
      (ascii "a") ⟨ascii "x", 2⟩) (ascii "a") (ascii "xyz") = .ok ⟨ascii "x", 1⟩ :=
  configFor_tie_first_registered [] (ascii "a") (ascii "xyz") ⟨ascii "x", 1⟩ ⟨ascii "x", 2⟩
    rfl (by decide) (by simp)

/-- Counterexample to C3 as stated: two different configs are registered under `"a~x"`, the
stream key `"xyz"` begins with the prefix, nothing longer is registered, and
`configFor("a", "xyz")` returns the first-registered config, not the last. -/
theorem configFor_tie_last_registered_counterexample :
    (⟨ascii "x", 1⟩ : StreamConfig) ≠ ⟨ascii "x", 2⟩ ∧
    configFor (configurePrefix (configurePrefix [] (ascii "a") ⟨ascii "x", 1⟩)
      (ascii "a") ⟨ascii "x", 2⟩) (ascii "a") (ascii "xyz") = .ok ⟨ascii "x", 1⟩ ∧
    configFor (configurePrefix (configurePrefix [] (ascii "a") ⟨ascii "x", 1⟩)
      (ascii "a") ⟨ascii "x", 2⟩) (ascii "a") (ascii "xyz") ≠ .ok ⟨ascii "x", 2⟩ := by
  refine ⟨by decide, rfl, ?_⟩
  intro h
  have h' : (Except.ok ⟨ascii "x", 1⟩ : Except Error StreamConfig) = .ok ⟨ascii "x", 2⟩ := h
  injection h' with h''
  exact absurd h'' (by decide)

/-- C4: insertion order is not a correctness invariant of the resolver. For a configuration
list whose composite keys are pairwise distinct and any permutation of it, `configFor`
gives the same outcome on both: the same config, or the not-found error in both. -/
theorem configFor_perm {α : Type} (l l' : List (Bytes × α)) (hperm : l.Perm l')
    (hnd : (l.map Prod.fst).Nodup) (ns sk : Bytes) :
    configFor l ns sk = configFor l' ns sk := by
  have hnd' : (l'.map Prod.fst).Nodup := ((hperm.map Prod.fst).nodup_iff).1 hnd
  rcases configFor_cases l ns sk with ⟨herr, hzero⟩ | ⟨l₁, k, v, l₂, hl, hk, hpos, hok, h₁, h₂⟩
  · rcases configFor_cases l' ns sk with
      ⟨herr', _⟩ | ⟨l₁', k', v', l₂', hl', hk', hpos', _, _, _⟩
    · rw [herr, herr']
    · have hmem : (k', v') ∈ l := hperm.mem_iff.2 (by rw [hl']; simp)
      have := hzero (k', v') hmem hk'
      simp only at this; omega
  · rw [hok]
    symm
    obtain ⟨k₀, hmem, hk₀, hpos₀, hmax⟩ := (configFor_ok_iff_of_nodup l hnd ns sk v).1 hok
    exact (configFor_ok_iff_of_nodup l' hnd' ns sk v).2
      ⟨k₀, hperm.mem_iff.1 hmem, hk₀, hpos₀, fun e he => hmax e (hperm.mem_iff.2 he)⟩

/-- Witness of C4: the entries `"a~x"` and `"a~xy"` in either order resolve `("a", "xyz")`
alike. -/
theorem configFor_perm_witness :
    (demoConfigs.map Prod.fst).Nodup ∧
    configFor demoConfigs (ascii "a") (ascii "xyz") =
      configFor demoConfigs.reverse (ascii "a") (ascii "xyz") :=
  ⟨by decide,
   configFor_perm demoConfigs demoConfigs.reverse (List.reverse_perm demoConfigs).symm
     (by decide) (ascii "a") (ascii "xyz")⟩

end TSDB

namespace TSDB

/-! ## The recovery scan: `reopenPartitions` -/

theorem find_eq_none_iff (key : Bytes) (chr : UInt8) :
    StringUtil.find key chr = none ↔ chr ∉ key := by
  induction key with
  | nil => simp [StringUtil.find]
  | cons b bs ih =>
    by_cases hb : b = chr
    · simp [StringUtil.find, hb]
    · simp [StringUtil.find, hb, ih, Ne.symm hb]

/-- The offset found for `chr` splits the string at the first `chr`. -/
theorem find_eq_some (key : Bytes) (chr : UInt8) (off : Nat)
    (h : StringUtil.find key chr = some off) :
    key = key.take off ++ chr :: key.drop (off + 1) ∧ chr ∉ key.take off := by
  induction key generalizing off with
  | nil => simp [StringUtil.find] at h
  | cons b bs ih =>
    by_cases hb : b = chr
    · simp [StringUtil.find, hb] at h
      subst h; subst hb
      simp
    · simp only [StringUtil.find, hb, if_false, Option.map_eq_some'] at h
      obtain ⟨off', hoff', rfl⟩ := h
      obtain ⟨hsplit, hnot⟩ := ih off' hoff'
      refine ⟨?_, ?_⟩
      · simp only [List.take_succ_cons, List.drop_succ_cons, List.cons_append]
        rw [← hsplit]
      · simp only [List.take_succ_cons, List.mem_cons, not_or]
        exact ⟨Ne.symm hb, hnot⟩

/-- The first `chr` of `ns ++ chr :: pk`, when `ns` has none, is at offset `ns.length`. -/
theorem find_split (ns pk : Bytes) (chr : UInt8) (h : chr ∉ ns) :
    StringUtil.find (ns ++ chr :: pk) chr = some ns.length := by
  induction ns with
  | nil => simp [StringUtil.find]
  | cons b bs ih =>
    have hb : b ≠ chr := fun hb => h (by simp [hb])
    have hbs : chr ∉ bs := fun hbs => h (List.mem_cons_of_mem _ hbs)
    simp [StringUtil.find, hb, ih hbs]

/-- The bytes handed to `SHA1Hash`, `size - off - 1` bytes from `data + off + 1`, are all
the bytes after offset `off`. -/
theorem partition_key_bytes (key : Bytes) (off : Nat) :
    (key.drop (off + 1)).take (key.length - off - 1) = key.drop (off + 1) := by
  apply List.take_of_length_le
  simp only [List.length_drop]
  omega

theorem skippedKey_eq_false (key : Bytes) :
    skippedKey key = false ↔ key.length ≠ 0 ∧ key.head? ≠ some metaMarker := by
  cases key <;> simp [skippedKey]

theorem skippedKey_eq_true (key : Bytes) :
    skippedKey key = true ↔ key.length = 0 ∨ key.head? = some metaMarker := by
  cases key <;> simp [skippedKey]

/-- A skipped row leaves the node as it is and the scan goes on. -/
theorem row_of_skipped {State Handle : Type} (env : Collaborators State Handle)
    (node : TSDBNode Handle) (kv : Row) (h : skippedKey kv.1 = true) :
    reopenPartitions.row env node kv = (.ok (), node) := by
  rcases (skippedKey_eq_true _).1 h with h0 | h1
  · simp [reopenPartitions.row, h0]
  · simp [reopenPartitions.row, h1]

/-- A row that is not skipped and whose key has no `~` raises the invalid-partition-key
error and leaves the node as it is. -/
theorem row_of_no_tilde {State Handle : Type} (env : Collaborators State Handle)
    (node : TSDBNode Handle) (kv : Row) (h : skippedKey kv.1 = false) (ht : tilde ∉ kv.1) :
    reopenPartitions.row env node kv = (.error (.invalidPartitionKey kv.1), node) := by
  obtain ⟨h0, h1⟩ := (skippedKey_eq_false _).1 h
  simp [reopenPartitions.row, h0, h1, (find_eq_none_iff kv.1 tilde).2 ht]

/-- What the loop body computes on a row that is not skipped and has the key
`ns ++ "~" ++ pk` with no `~` in `ns`. -/
theorem row_of_split {State Handle : Type} (env : Collaborators State Handle)
    (node : TSDBNode Handle) (kv : Row) (ns pk : Bytes) (h : skippedKey kv.1 = false)
    (hkey : kv.1 = ns ++ tilde :: pk) (hns : tilde ∉ ns) :
    reopenPartitions.row env node kv =
      match env.decode kv.2 with
      | .error e => (.error e, node)
      | .ok state =>
        match configFor node.configs_ ns (env.stream_key state) with
        | .error e => (.error e, node)
        | .ok config =>
          match env.reopen ⟨pk⟩ state config with
          | .error e => (.error e, node)
          | .ok partition =>
            (.ok (), { node with
              partitions_ := Registry.emplace node.partitions_ kv.1 partition }) := by
  obtain ⟨h0, h1⟩ := (skippedKey_eq_false _).1 h
  have hfind : StringUtil.find kv.1 tilde = some ns.length := by
    rw [hkey]; exact find_split ns pk tilde hns
  have htake : kv.1.take ns.length = ns := by rw [hkey]; exact List.take_left _ _
  have hdrop : kv.1.drop (ns.length + 1) = pk := by
    rw [hkey, List.drop_append]; rfl
  have hpk : (kv.1.drop (ns.length + 1)).take (kv.1.length - ns.length - 1) = pk := by
    rw [partition_key_bytes, hdrop]
  simp only [reopenPartitions.row, h0, h1, if_false, hfind, hpk, htake]

/-- A well-formed, recoverable row puts its handle into the registry by `emplace`. -/
theorem row_of_reopensTo {State Handle : Type} (env : Collaborators State Handle)
    (node : TSDBNode Handle) (kv : Row) (partition : Handle) (h : skippedKey kv.1 = false)
    (hr : ReopensTo env node.configs_ kv partition) :
    reopenPartitions.row env node kv =
      (.ok (), { node with
        partitions_ := Registry.emplace node.partitions_ kv.1 partition }) := by
  obtain ⟨ns, pk, state, config, hkey, hns, hdec, hcfg, hre⟩ := hr
  rw [row_of_split env node kv ns pk h hkey hns]
  simp only [hdec, hcfg, hre]

/-- The three ways the loop body ends: the row is skipped; an exception is raised and the
node is as before; or the row is well formed and recoverable and its handle is emplaced. -/
theorem row_cases {State Handle : Type} (env : Collaborators State Handle)
    (node : TSDBNode Handle) (kv : Row) :
    (skippedKey kv.1 = true ∧ reopenPartitions.row env node kv = (.ok (), node)) ∨
    (skippedKey kv.1 = false ∧ ∃ e, reopenPartitions.row env node kv = (.error e, node)) ∨
    (skippedKey kv.1 = false ∧ ∃ partition, ReopensTo env node.configs_ kv partition ∧
      reopenPartitions.row env node kv =
        (.ok (), { node with
          partitions_ := Registry.emplace node.partitions_ kv.1 partition })) := by
  cases hs : skippedKey kv.1 with
  | true => exact Or.inl ⟨rfl, row_of_skipped env node kv hs⟩
  | false =>
    refine Or.inr ?_
    cases hf : StringUtil.find kv.1 tilde with
    | none =>
      exact Or.inl ⟨rfl, _, row_of_no_tilde env node kv hs ((find_eq_none_iff _ _).1 hf)⟩
    | some off =>
      obtain ⟨hkey, hns⟩ := find_eq_some kv.1 tilde off hf
      have hrow := row_of_split env node kv _ _ hs hkey hns
      cases hdec : env.decode kv.2 with
      | error e => exact Or.inl ⟨rfl, e, by rw [hrow, hdec]⟩
      | ok state =>
        cases hcfg : configFor node.configs_ (kv.1.take off) (env.stream_key state) with
        | error e => exact Or.inl ⟨rfl, e, by rw [hrow, hdec]; simp only [hcfg]⟩
        | ok config =>
          cases hre : env.reopen ⟨kv.1.drop (off + 1)⟩ state config with
          | error e => exact Or.inl ⟨rfl, e, by rw [hrow, hdec]; simp only [hcfg, hre]⟩
          | ok partition =>
            refine Or.inr ⟨rfl, partition, ⟨_, _, state, config, hkey, hns, hdec, hcfg, hre⟩, ?_⟩
            rw [hrow, hdec]; simp only [hcfg, hre]

end TSDB

namespace TSDB

/-! ### The registry operations -/

theorem find_append {Handle : Type} (a b : Registry Handle) (key : Bytes) :
    Registry.find (a ++ b) key =
      match Registry.find a key with
      | some h => some h
      | none => Registry.find b key := by
  induction a with
  | nil => simp only [List.nil_append, Registry.find]
  | cons e a ih =>
    obtain ⟨k, h⟩ := e
    by_cases hk : k = key
    · simp [Registry.find, hk]
    · simp [Registry.find, hk, ih]

/-- A key with no entry is not among the keys of the registry. -/
theorem find_eq_none_iff_not_mem {Handle : Type} (reg : Registry Handle) (key : Bytes) :
    Registry.find reg key = none ↔ key ∉ reg.map Prod.fst := by
  induction reg with
  | nil => simp [Registry.find]
  | cons e reg ih =>
    obtain ⟨k, h⟩ := e
    by_cases hk : k = key
    · simp [Registry.find, hk]
    · simp [Registry.find, hk, ih, Ne.symm hk]

/-- After `emplace(key, partition)` on a registry without `key`, the entry is there. -/
theorem emplace_of_absent {Handle : Type} (reg : Registry Handle) (key : Bytes)
    (partition : Handle) (h : Registry.find reg key = none) :
    Registry.emplace reg key partition = reg ++ [(key, partition)] := by
  simp [Registry.emplace, h]

/-- The call `emplace` never changes what a bound key is bound to. -/
theorem find_emplace_of_some {Handle : Type} (reg : Registry Handle) (key key' : Bytes)
    (partition h : Handle) (hf : Registry.find reg key = some h) :
    Registry.find (Registry.emplace reg key' partition) key = some h := by
  unfold Registry.emplace
  split
  · exact hf
  · rw [find_append, hf]

/-- After `emplace(key, partition)` on a registry without `key`, `find(key)` gives
`partition`. -/
theorem find_emplace_self {Handle : Type} (reg : Registry Handle) (key : Bytes)
    (partition : Handle) (h : Registry.find reg key = none) :
    Registry.find (Registry.emplace reg key partition) key = some partition := by
  rw [emplace_of_absent reg key partition h, find_append, h]
  simp [Registry.find]

/-- The call `emplace` under another key leaves an unbound key unbound. -/
theorem find_emplace_of_ne {Handle : Type} (reg : Registry Handle) (key key' : Bytes)
    (partition : Handle) (hne : key' ≠ key) (hf : Registry.find reg key = none) :
    Registry.find (Registry.emplace reg key' partition) key = none := by
  unfold Registry.emplace
  split
  · exact hf
  · rw [find_append, hf]
    simp [Registry.find, hne]

/-! ### The scan as a whole -/

theorem reopen_cons {State Handle : Type} (env : Collaborators State Handle)
    (node : TSDBNode Handle) (kv : Row) (rest : List Row) :
    reopenPartitions env node (kv :: rest) =
      match reopenPartitions.row env node kv with
      | (.ok (), node') => reopenPartitions env node' rest
      | (.error e, node') => (.error e, node') := rfl

/-- The loop body never touches `configs_`. -/
theorem row_configs {State Handle : Type} (env : Collaborators State Handle)
    (node : TSDBNode Handle) (kv : Row) :
    (reopenPartitions.row env node kv).2.configs_ = node.configs_ := by
  rcases row_cases env node kv with ⟨_, h⟩ | ⟨_, _, h⟩ | ⟨_, _, _, h⟩ <;> rw [h]

/-- The scan never touches `configs_`. -/
theorem reopen_configs {State Handle : Type} (env : Collaborators State Handle)
    (node : TSDBNode Handle) (rows : List Row) :
    (reopenPartitions env node rows).2.configs_ = node.configs_ := by
  induction rows generalizing node with
  | nil => rfl
  | cons kv rest ih =>
    rw [reopen_cons]
    have hc := row_configs env node kv
    rcases hrow : reopenPartitions.row env node kv with ⟨_ | _, node'⟩
    · rw [hrow] at hc; exact hc
    · rw [hrow] at hc; simp only; rw [ih, hc]

/-- Skipped rows can be dropped from the front of the scan. -/
theorem reopen_cons_skipped {State Handle : Type} (env : Collaborators State Handle)
    (node : TSDBNode Handle) (kv : Row) (rest : List Row) (h : skippedKey kv.1 = true) :
    reopenPartitions env node (kv :: rest) = reopenPartitions env node rest := by
  rw [reopen_cons, row_of_skipped env node kv h]

/-- A row on which the loop body raises, whatever the registry, ends the scan: the node is
left as the rows before it made it. -/
theorem reopen_fail_at {State Handle : Type} (env : Collaborators State Handle)
    (node : TSDBNode Handle) (pre post : List Row) (bad : Row)
    (hbad : ∀ n : TSDBNode Handle, n.configs_ = node.configs_ →
      ∃ e, reopenPartitions.row env n bad = (.error e, n)) :
    ∃ e, reopenPartitions env node (pre ++ bad :: post) =
      (.error e, (reopenPartitions env node pre).2) := by
  induction pre generalizing node with
  | nil =>
    obtain ⟨e, he⟩ := hbad node rfl
    exact ⟨e, by rw [List.nil_append, reopen_cons, he]; rfl⟩
  | cons kv pre ih =>
    rw [List.cons_append, reopen_cons, reopen_cons]
    have hc := row_configs env node kv
    rcases hrow : reopenPartitions.row env node kv with ⟨e | _, node'⟩
    · exact ⟨e, rfl⟩
    · rw [hrow] at hc
      exact ih node' (fun n hn => hbad n (by rw [hn, hc]))

/-- A scan over rows that are all skipped or well formed and recoverable completes. -/
theorem reopen_ok_of_recoverable {State Handle : Type} (env : Collaborators State Handle)
    (node : TSDBNode Handle) (rows : List Row)
    (h : ∀ kv ∈ rows, skippedKey kv.1 = true ∨
      ∃ partition, ReopensTo env node.configs_ kv partition) :
    (reopenPartitions env node rows).1 = .ok () := by
  induction rows generalizing node with
  | nil => rfl
  | cons kv rest ih =>
    rw [reopen_cons]
    rcases h kv (List.mem_cons_self _ _) with hs | ⟨partition, hr⟩
    · rw [row_of_skipped env node kv hs]
      exact ih node (fun kv' h' => h kv' (List.mem_cons_of_mem _ h'))
    · cases hs : skippedKey kv.1 with
      | true =>
        rw [row_of_skipped env node kv hs]
        exact ih node (fun kv' h' => h kv' (List.mem_cons_of_mem _ h'))
      | false =>
        rw [row_of_reopensTo env node kv partition hs hr]
        exact ih _ (fun kv' h' => h kv' (List.mem_cons_of_mem _ h'))

/-- The scan never changes what a bound key is bound to. -/
theorem reopen_find_of_some {State Handle : Type} (env : Collaborators State Handle)
    (node : TSDBNode Handle) (rows : List Row) (key : Bytes) (h : Handle)
    (hf : Registry.find node.partitions_ key = some h) :
    Registry.find (reopenPartitions env node rows).2.partitions_ key = some h := by
  induction rows generalizing node with
  | nil => exact hf
  | cons kv rest ih =>
    rw [reopen_cons]
    rcases row_cases env node kv with ⟨_, hrow⟩ | ⟨_, e, hrow⟩ | ⟨_, partition, _, hrow⟩
    · rw [hrow]; exact ih node hf
    · rw [hrow]; exact hf
    · rw [hrow]
      exact ih _ (find_emplace_of_some node.partitions_ key kv.1 partition h hf)

/-- The scan binds no key other than the keys of its rows. -/
theorem reopen_find_of_none {State Handle : Type} (env : Collaborators State Handle)
    (node : TSDBNode Handle) (rows : List Row) (key : Bytes)
    (hf : Registry.find node.partitions_ key = none) (hrows : ∀ kv ∈ rows, kv.1 ≠ key) :
    Registry.find (reopenPartitions env node rows).2.partitions_ key = none := by
  induction rows generalizing node with
  | nil => exact hf
  | cons kv rest ih =>
    have hrest : ∀ kv' ∈ rest, kv'.1 ≠ key := fun kv' h' => hrows kv' (List.mem_cons_of_mem _ h')
    rw [reopen_cons]
    rcases row_cases env node kv with ⟨_, hrow⟩ | ⟨_, e, hrow⟩ | ⟨_, partition, _, hrow⟩
    · rw [hrow]; exact ih node hf hrest
    · rw [hrow]; exact hf
    · rw [hrow]
      exact ih _ (find_emplace_of_ne node.partitions_ key kv.1 partition
        (hrows kv (List.mem_cons_self _ _)) hf) hrest

/-- A scan that completes over `pre ++ post` completes over `pre`, and goes on over `post`
from the node that `pre` leaves. -/
theorem reopen_append_ok {State Handle : Type} (env : Collaborators State Handle)
    (node : TSDBNode Handle) (pre post : List Row)
    (h : (reopenPartitions env node (pre ++ post)).1 = .ok ()) :
    (reopenPartitions env node pre).1 = .ok () ∧
    reopenPartitions env node (pre ++ post) =
      reopenPartitions env (reopenPartitions env node pre).2 post := by
  induction pre generalizing node with
  | nil => exact ⟨rfl, rfl⟩
  | cons kv pre ih =>
    rw [List.cons_append, reopen_cons] at h
    rw [List.cons_append, reopen_cons, reopen_cons]
    rcases hrow : reopenPartitions.row env node kv with ⟨e | _, node'⟩
    · rw [hrow] at h; cases h
    · rw [hrow] at h; exact ih node' h

end TSDB

namespace TSDB

/-- A scan that completes over `pre` goes on over the remaining rows from the node that
`pre` leaves. -/
theorem reopen_append_of_ok {State Handle : Type} (env : Collaborators State Handle)
    (node : TSDBNode Handle) (pre post : List Row)
    (h : (reopenPartitions env node pre).1 = .ok ()) :
    reopenPartitions env node (pre ++ post) =
      reopenPartitions env (reopenPartitions env node pre).2 post := by
  induction pre generalizing node with
  | nil => rfl
  | cons kv pre ih =>
    rw [reopen_cons] at h
    rw [List.cons_append, reopen_cons, reopen_cons]
    rcases hrow : reopenPartitions.row env node kv with ⟨e | _, node'⟩
    · rw [hrow] at h; cases h
    · rw [hrow] at h; exact ih node' h

/-- A scan over skipped rows only completes and leaves the node as it is. -/
theorem reopen_all_skipped {State Handle : Type} (env : Collaborators State Handle)
    (node : TSDBNode Handle) (rows : List Row) (h : ∀ kv ∈ rows, skippedKey kv.1 = true) :
    reopenPartitions env node rows = (.ok (), node) := by
  induction rows with
  | nil => rfl
  | cons kv rest ih =>
    rw [reopen_cons_skipped env node kv rest (h kv (List.mem_cons_self _ _))]
    exact ih (fun kv' h' => h kv' (List.mem_cons_of_mem _ h'))

/-- The resolver fails when no registered composite key is a prefix of the candidate. -/
theorem configFor_error_of_no_match {α : Type} (l : List (Bytes × α)) (ns sk : Bytes)
    (h : ∀ e ∈ l, ¬ e.1 <+: ns ++ [tilde] ++ sk) :
    configFor l ns sk = .error (.noConfigFound sk) := by
  rcases configFor_cases l ns sk with ⟨herr, _⟩ | ⟨l₁, k, v, l₂, hl, hk, _, _, _, _⟩
  · exact herr
  · exact absurd hk (h (k, v) (by rw [hl]; simp))

/-- Recovery of rows with pairwise distinct keys, none of them bound yet, all of them
skipped or recoverable: the scan completes and appends one entry per row that is not
skipped. -/
theorem reopen_all_from {State Handle : Type} (env : Collaborators State Handle)
    (configs_ : List (Bytes × StreamConfig)) (rows : List Row) (reg₀ : Registry Handle)
    (hnd : ((rows.filter (fun kv => !skippedKey kv.1)).map Prod.fst).Nodup)
    (hfree : ∀ kv ∈ rows, skippedKey kv.1 = false → Registry.find reg₀ kv.1 = none)
    (hall : ∀ kv ∈ rows, skippedKey kv.1 = false →
      ∃ partition, ReopensTo env configs_ kv partition) :
    ∃ added, reopenPartitions env ⟨configs_, reg₀⟩ rows = (.ok (), ⟨configs_, reg₀ ++ added⟩) ∧
      added.map Prod.fst = (rows.filter (fun kv => !skippedKey kv.1)).map Prod.fst ∧
      ∀ kv ∈ rows, skippedKey kv.1 = false →
        ∃ partition, Registry.find (reg₀ ++ added) kv.1 = some partition ∧
          ReopensTo env configs_ kv partition := by
  induction rows generalizing reg₀ with
  | nil => exact ⟨[], by simp [reopenPartitions], rfl, by simp⟩
  | cons kv rest ih =>
    have hfree' : ∀ kv' ∈ rest, skippedKey kv'.1 = false → Registry.find reg₀ kv'.1 = none :=
      fun kv' h' => hfree kv' (List.mem_cons_of_mem _ h')
    have hall' : ∀ kv' ∈ rest, skippedKey kv'.1 = false →
        ∃ partition, ReopensTo env configs_ kv' partition :=
      fun kv' h' => hall kv' (List.mem_cons_of_mem _ h')
    cases hs : skippedKey kv.1 with
    | true =>
      have hfilter : (kv :: rest).filter (fun kv => !skippedKey kv.1) =
          rest.filter (fun kv => !skippedKey kv.1) := by simp [List.filter_cons, hs]
      rw [hfilter] at hnd ⊢
      obtain ⟨added, hres, hkeys, hfind⟩ := ih reg₀ hnd hfree' hall'
      refine ⟨added, by rw [reopen_cons_skipped env _ kv rest hs, hres], hkeys, ?_⟩
      intro kv' h' hs'
      rcases List.mem_cons.1 h' with rfl | h'
      · rw [hs] at hs'; cases hs'
      · exact hfind kv' h' hs'
    | false =>
      have hfilter : (kv :: rest).filter (fun kv => !skippedKey kv.1) =
          kv :: rest.filter (fun kv => !skippedKey kv.1) := by simp [List.filter_cons, hs]
      rw [hfilter, List.map_cons, List.nodup_cons] at hnd
      rw [hfilter]
      obtain ⟨partition, hr⟩ := hall kv (List.mem_cons_self _ _) hs
      have hkv : Registry.find reg₀ kv.1 = none := hfree kv (List.mem_cons_self _ _) hs
      have hfree'' : ∀ kv' ∈ rest, skippedKey kv'.1 = false →
          Registry.find (reg₀ ++ [(kv.1, partition)]) kv'.1 = none := by
        intro kv' h' hs'
        have hne : kv.1 ≠ kv'.1 := by
          intro heq
          apply hnd.1
          rw [heq]
          exact List.mem_map_of_mem _ (List.mem_filter.2 ⟨h', by simp [hs']⟩)
        rw [find_append, hfree' kv' h' hs']
        simp [Registry.find, hne]
      obtain ⟨added, hres, hkeys, hfind⟩ :=
        ih (reg₀ ++ [(kv.1, partition)]) hnd.2 hfree'' hall'
      have happ : reg₀ ++ [(kv.1, partition)] ++ added = reg₀ ++ (kv.1, partition) :: added := by
        simp
      refine ⟨(kv.1, partition) :: added, ?_, by rw [List.map_cons, hkeys, List.map_cons], ?_⟩
      · rw [reopen_cons, row_of_reopensTo env _ kv partition hs hr]
        simp only
        rw [emplace_of_absent reg₀ kv.1 partition hkv, hres, happ]
      · intro kv' h' hs'
        rcases List.mem_cons.1 h' with rfl | h'
        · refine ⟨partition, ?_, hr⟩
          rw [find_append, hkv]
          simp [Registry.find]
        · rw [← happ]
          exact hfind kv' h' hs'

end TSDB

namespace TSDB

/-! ### Claims on the recovery scan -/

/-- C5: for an index whose rows that are not skipped have pairwise distinct keys, each
`ns ++ "~" ++ pk` with a decodable state whose stream key resolves under `ns` and each
reopening successfully, `reopenPartitions` on an empty registry completes, and the
registry then holds exactly one entry per such row, keyed by the row's full index key,
whose handle is `Partition::reopen(pk, decoded state, configFor(ns, state.stream_key))`. -/
theorem reopenPartitions_recovers {State Handle : Type} (env : Collaborators State Handle)
    (configs_ : List (Bytes × StreamConfig)) (rows : List Row)
    (hnd : ((rows.filter (fun kv => !skippedKey kv.1)).map Prod.fst).Nodup)
    (hall : ∀ kv ∈ rows, skippedKey kv.1 = false →
      ∃ partition, ReopensTo env configs_ kv partition) :
    ∃ reg, reopenPartitions env ⟨configs_, []⟩ rows = (.ok (), ⟨configs_, reg⟩) ∧
      reg.map Prod.fst = (rows.filter (fun kv => !skippedKey kv.1)).map Prod.fst ∧
      ∀ kv ∈ rows, skippedKey kv.1 = false →
        ∃ partition, Registry.find reg kv.1 = some partition ∧
          ReopensTo env configs_ kv partition := by
  obtain ⟨added, hres, hkeys, hfind⟩ :=
    reopen_all_from env configs_ rows [] hnd (fun _ _ _ => rfl) hall
  exact ⟨added, hres, hkeys, hfind⟩

/-- Witness of C5: the prefix `("ns1", "events")` is registered and the index has the one
row `"ns1~" ++ k1` with stream key `"events-2024"`; recovery gives one entry at
`"ns1~" ++ k1`, bound to the `"events"` config. -/
theorem reopenPartitions_recovers_witness :
    reopenPartitions demoEnv ⟨ns1Configs, []⟩ [ns1Row] =
      (.ok (), ⟨ns1Configs, [(ascii "ns1" ++ [tilde] ++ k1, ns1Handle)]⟩) ∧
    ns1Handle.config = eventsCfg ∧
    ∃ reg, reopenPartitions demoEnv ⟨ns1Configs, []⟩ [ns1Row] = (.ok (), ⟨ns1Configs, reg⟩) ∧
      reg.map Prod.fst = ([ns1Row].filter (fun kv => !skippedKey kv.1)).map Prod.fst ∧
      ∀ kv ∈ [ns1Row], skippedKey kv.1 = false →
        ∃ partition, Registry.find reg kv.1 = some partition ∧
          ReopensTo demoEnv ns1Configs kv partition :=
  ⟨rfl, rfl,
   reopenPartitions_recovers demoEnv ns1Configs [ns1Row] (by decide)
     (fun kv hkv _ => by
       rw [List.mem_singleton.1 hkv]
       exact ⟨ns1Handle, ascii "ns1", k1, ascii "events-2024", eventsCfg,
         rfl, by decide, rfl, rfl, rfl⟩)⟩

/-- C6: rows with an empty key or a key whose first byte is 0x1B contribute nothing to
recovery: the outcome of `reopenPartitions` (success or the exception, and the resulting
node) is its outcome on the same index with all such rows removed, whatever those rows
hold. -/
theorem reopenPartitions_ignores_skipped {State Handle : Type}
    (env : Collaborators State Handle) (node : TSDBNode Handle) (rows : List Row) :
    reopenPartitions env node rows =
      reopenPartitions env node (rows.filter (fun kv => !skippedKey kv.1)) := by
  induction rows generalizing node with
  | nil => rfl
  | cons kv rest ih =>
    cases hs : skippedKey kv.1 with
    | true =>
      have hfilter : (kv :: rest).filter (fun kv => !skippedKey kv.1) =
          rest.filter (fun kv => !skippedKey kv.1) := by simp [List.filter_cons, hs]
      rw [hfilter, reopen_cons_skipped env node kv rest hs]
      exact ih node
    | false =>
      have hfilter : (kv :: rest).filter (fun kv => !skippedKey kv.1) =
          kv :: rest.filter (fun kv => !skippedKey kv.1) := by simp [List.filter_cons, hs]
      rw [hfilter, reopen_cons, reopen_cons]
      rcases reopenPartitions.row env node kv with ⟨e | _, node'⟩
      · rfl
      · exact ih node'

/-- Witness of C6: an index with one metadata row (key starting with 0x1B, holding a `~`,
value not decodable) and one well-formed partition row recovers exactly one partition. -/
theorem reopenPartitions_ignores_skipped_witness :
    skippedKey metaRow.1 = true ∧
    reopenPartitions demoEnv ⟨ns1Configs, []⟩ [metaRow, ns1Row] =
      reopenPartitions demoEnv ⟨ns1Configs, []⟩ [ns1Row] ∧
    (reopenPartitions demoEnv ⟨ns1Configs, []⟩ [metaRow, ns1Row]).1 = .ok () ∧
    (reopenPartitions demoEnv ⟨ns1Configs, []⟩ [metaRow, ns1Row]).2.partitions_ =
      [(ns1Row.1, ns1Handle)] :=
  ⟨by decide,
   reopenPartitions_ignores_skipped demoEnv ⟨ns1Configs, []⟩ [metaRow, ns1Row],
   rfl, rfl⟩

/-- C7: for an index that contains a row whose key is not empty, does not start with 0x1B
and has no `~`, `reopenPartitions` raises an exception; and when every row before it is
skipped or well formed and recoverable, the exception is the invalid-partition-key error
for that row's key. -/
theorem reopenPartitions_corrupt_key_fails {State Handle : Type}
    (env : Collaborators State Handle) (node : TSDBNode Handle) (pre post : List Row)
    (bad : Row) (hs : skippedKey bad.1 = false) (ht : tilde ∉ bad.1) :
    (∃ e, (reopenPartitions env node (pre ++ bad :: post)).1 = .error e) ∧
    ((∀ kv ∈ pre, skippedKey kv.1 = true ∨
        ∃ partition, ReopensTo env node.configs_ kv partition) →
      (reopenPartitions env node (pre ++ bad :: post)).1 =
        .error (.invalidPartitionKey bad.1)) := by
  constructor
  · obtain ⟨e, he⟩ := reopen_fail_at env node pre post bad
      (fun n _ => ⟨_, row_of_no_tilde env n bad hs ht⟩)
    exact ⟨e, by rw [he]⟩
  · intro hpre
    rw [reopen_append_of_ok env node pre _ (reopen_ok_of_recoverable env node pre hpre),
      reopen_cons, row_of_no_tilde env _ bad hs ht]

/-- Witness of C7: a recoverable row followed by a row without `~`: recovery raises the
invalid-partition-key error. -/
theorem reopenPartitions_corrupt_key_fails_witness :
    skippedKey corruptRow.1 = false ∧ tilde ∉ corruptRow.1 ∧
    (reopenPartitions demoEnv ⟨ns1Configs, []⟩ ([ns1Row] ++ corruptRow :: [])).1 =
      .error (.invalidPartitionKey corruptRow.1) :=
  ⟨by decide, by decide,
   (reopenPartitions_corrupt_key_fails demoEnv ⟨ns1Configs, []⟩ [ns1Row] [] corruptRow
      (by decide) (by decide)).2
     (fun kv hkv => by
       rw [List.mem_singleton.1 hkv]
       exact Or.inr ⟨ns1Handle, ascii "ns1", k1, ascii "events-2024", eventsCfg,
         rfl, by decide, rfl, rfl, rfl⟩)⟩

/-- C8 (as the code has it): recovery stops at a corrupt key and undoes nothing. For an
index containing a row that is not skipped and whose key has no `~`, `reopenPartitions`
raises and leaves the node exactly as the rows scanned before the corrupt row made it; the
registry is unchanged (still empty, if it was) when every row before it is skipped. -/
theorem reopenPartitions_corrupt_key_keeps_earlier {State Handle : Type}
    (env : Collaborators State Handle) (node : TSDBNode Handle) (pre post : List Row)
    (bad : Row) (hs : skippedKey bad.1 = false) (ht : tilde ∉ bad.1) :
    (∃ e, reopenPartitions env node (pre ++ bad :: post) =
      (.error e, (reopenPartitions env node pre).2)) ∧
    ((∀ kv ∈ pre, skippedKey kv.1 = true) →
      (reopenPartitions env node (pre ++ bad :: post)).2 = node) := by
  have hfail := reopen_fail_at env node pre post bad
    (fun n _ => ⟨_, row_of_no_tilde env n bad hs ht⟩)
  refine ⟨hfail, fun hpre => ?_⟩
  obtain ⟨e, he⟩ := hfail
  rw [he, reopen_all_skipped env node pre hpre]

/-- Witness of C8 (as the code has it): a metadata row, then a row without `~`, on an empty
registry: recovery raises and the registry is still empty. -/
theorem reopenPartitions_corrupt_key_keeps_earlier_witness :
    skippedKey corruptRow.1 = false ∧ tilde ∉ corruptRow.1 ∧
    (reopenPartitions demoEnv ⟨ns1Configs, []⟩ ([metaRow] ++ corruptRow :: [ns1Row])).2 =
      ⟨ns1Configs, []⟩ :=
  ⟨by decide, by decide,
   (reopenPartitions_corrupt_key_keeps_earlier demoEnv ⟨ns1Configs, []⟩ [metaRow] [ns1Row]
      corruptRow (by decide) (by decide)).2
     (fun kv hkv => by rw [List.mem_singleton.1 hkv]; decide)⟩

/-- Counterexample to C8 as stated: the index holds a well-formed row and then a row whose
key has no `~`; `reopenPartitions` on the empty registry raises the invalid-partition-key
error, and the registry is not empty: it holds the partition of the first row. -/
theorem reopenPartitions_atomic_counterexample :
    skippedKey corruptRow.1 = false ∧ tilde ∉ corruptRow.1 ∧
    (reopenPartitions demoEnv ⟨ns1Configs, []⟩ [ns1Row, corruptRow]).1 =
      .error (.invalidPartitionKey corruptRow.1) ∧
    (reopenPartitions demoEnv ⟨ns1Configs, []⟩ [ns1Row, corruptRow]).2.partitions_ =
      [(ns1Row.1, ns1Handle)] ∧
    (reopenPartitions demoEnv ⟨ns1Configs, []⟩ [ns1Row, corruptRow]).2.partitions_ ≠ [] :=
  ⟨by decide, by decide, rfl, rfl, by decide⟩

end TSDB

namespace TSDB

/-- C9 (as the code has it): if the recovery scan meets two rows with the same index key,
the earlier row's handle stays. When the key is not bound before the scan and the scan
completes, the registry entry for that key is the handle reopened from the first row
with that key in scan order, whatever rows with the same key follow. -/
theorem reopenPartitions_duplicate_key_keeps_first {State Handle : Type}
    (env : Collaborators State Handle) (node : TSDBNode Handle) (pre post : List Row)
    (kv : Row) (hs : skippedKey kv.1 = false) (hpre : ∀ r ∈ pre, r.1 ≠ kv.1)
    (hfree : Registry.find node.partitions_ kv.1 = none)
    (hok : (reopenPartitions env node (pre ++ kv :: post)).1 = .ok ()) :
    ∃ partition, ReopensTo env node.configs_ kv partition ∧
      Registry.find (reopenPartitions env node (pre ++ kv :: post)).2.partitions_ kv.1 =
        some partition := by
  obtain ⟨_, happ⟩ := reopen_append_ok env node pre (kv :: post) hok
  have hnone := reopen_find_of_none env node pre kv.1 hfree hpre
  have hcfg := reopen_configs env node pre
  rw [happ] at hok ⊢
  generalize (reopenPartitions env node pre).2 = n₁ at hok hnone hcfg ⊢
  rw [reopen_cons] at hok ⊢
  rcases row_cases env n₁ kv with ⟨hsk, _⟩ | ⟨_, e, hrow⟩ | ⟨_, partition, hr, hrow⟩
  · rw [hs] at hsk; cases hsk
  · rw [hrow] at hok; cases hok
  · rw [hrow]
    rw [hcfg] at hr
    exact ⟨partition, hr,
      reopen_find_of_some env _ post kv.1 partition
        (find_emplace_self n₁.partitions_ kv.1 partition hnone)⟩

/-- Witness of C9 (as the code has it): two rows under the key `"ns1~" ++ k1`; the
registry entry is the handle reopened from the first. -/
theorem reopenPartitions_duplicate_key_keeps_first_witness :
    (reopenPartitions demoEnv ⟨ns1Configs, []⟩ ([] ++ ns1Row :: [ns1RowAgain])).1 = .ok () ∧
    ∃ partition, ReopensTo demoEnv ns1Configs ns1Row partition ∧
      Registry.find
        (reopenPartitions demoEnv ⟨ns1Configs, []⟩ ([] ++ ns1Row :: [ns1RowAgain])).2.partitions_
        ns1Row.1 = some partition :=
  ⟨rfl,
   reopenPartitions_duplicate_key_keeps_first demoEnv ⟨ns1Configs, []⟩ [] [ns1RowAgain] ns1Row
     (by decide) (by simp) rfl rfl⟩

/-- Counterexample to C9 as stated: the scan meets two rows with the key `"ns1~" ++ k1`,
their states differ and both reopen; after `reopenPartitions` the registry entry for the
key is the handle reopened from the first row, not the one from the last. -/
theorem reopenPartitions_overwrite_counterexample :
    ns1Row.1 = ns1RowAgain.1 ∧
    ReopensTo demoEnv ns1Configs ns1Row ns1Handle ∧
    ReopensTo demoEnv ns1Configs ns1RowAgain ⟨k1, ascii "events-2025", eventsCfg⟩ ∧
    (reopenPartitions demoEnv ⟨ns1Configs, []⟩ [ns1Row, ns1RowAgain]).1 = .ok () ∧
    Registry.find (reopenPartitions demoEnv ⟨ns1Configs, []⟩ [ns1Row, ns1RowAgain]).2.partitions_
      ns1Row.1 = some ns1Handle ∧
    Registry.find (reopenPartitions demoEnv ⟨ns1Configs, []⟩ [ns1Row, ns1RowAgain]).2.partitions_
      ns1Row.1 ≠ some ⟨k1, ascii "events-2025", eventsCfg⟩ :=
  ⟨rfl,
   ⟨ascii "ns1", k1, ascii "events-2024", eventsCfg, rfl, by decide, rfl, rfl, rfl⟩,
   ⟨ascii "ns1", k1, ascii "events-2025", eventsCfg, rfl, by decide, rfl, rfl, rfl⟩,
   rfl, rfl, by decide⟩

/-- C10: resolver failure is fatal to recovery. For an index containing a row that is not
skipped, with key `ns ++ "~" ++ pk` (no `~` in `ns`) and a decodable state such that no
registered composite key is a prefix of `ns ++ "~" ++ state.stream_key`,
`reopenPartitions` raises, the node is left as the rows before that row made it, and
that row creates no registry entry: its key is unbound afterwards unless it was bound
before the scan or an earlier row has the same key. -/
theorem reopenPartitions_unresolved_config_fails {State Handle : Type}
    (env : Collaborators State Handle) (node : TSDBNode Handle) (pre post : List Row)
    (bad : Row) (ns pk : Bytes) (state : State) (hs : skippedKey bad.1 = false)
    (hkey : bad.1 = ns ++ tilde :: pk) (hns : tilde ∉ ns)
    (hdec : env.decode bad.2 = .ok state)
    (hno : ∀ e ∈ node.configs_, ¬ e.1 <+: ns ++ [tilde] ++ env.stream_key state) :
    (∃ e, reopenPartitions env node (pre ++ bad :: post) =
      (.error e, (reopenPartitions env node pre).2)) ∧
    (Registry.find node.partitions_ bad.1 = none → (∀ kv ∈ pre, kv.1 ≠ bad.1) →
      Registry.find (reopenPartitions env node (pre ++ bad :: post)).2.partitions_ bad.1 =
        none) := by
  have hfail := reopen_fail_at env node pre post bad (fun n hn => by
    refine ⟨.noConfigFound (env.stream_key state), ?_⟩
    rw [row_of_split env n bad ns pk hs hkey hns, hdec]
    simp only [hn, configFor_error_of_no_match node.configs_ ns (env.stream_key state) hno])
  refine ⟨hfail, fun hfree hpre => ?_⟩
  obtain ⟨e, he⟩ := hfail
  rw [he]
  exact reopen_find_of_none env node pre bad.1 hfree hpre

/-- Witness of C10: a recoverable row of `"ns1"`, then a well-formed row of `"ns3"`, for
which nothing is registered: recovery raises and the key of the second row is unbound. -/
theorem reopenPartitions_unresolved_config_fails_witness :
    (∃ e, reopenPartitions demoEnv ⟨ns1Configs, []⟩ ([ns1Row] ++ unresolvedRow :: []) =
      (.error e, (reopenPartitions demoEnv ⟨ns1Configs, []⟩ [ns1Row]).2)) ∧
    Registry.find
      (reopenPartitions demoEnv ⟨ns1Configs, []⟩ ([ns1Row] ++ unresolvedRow :: [])).2.partitions_
      unresolvedRow.1 = none :=
  ⟨(reopenPartitions_unresolved_config_fails demoEnv ⟨ns1Configs, []⟩ [ns1Row] []
      unresolvedRow (ascii "ns3") k1 (ascii "events-2024") (by decide) rfl (by decide) rfl
      (by decide)).1,
   (reopenPartitions_unresolved_config_fails demoEnv ⟨ns1Configs, []⟩ [ns1Row] []
      unresolvedRow (ascii "ns3") k1 (ascii "events-2024") (by decide) rfl (by decide) rfl
      (by decide)).2 rfl (by decide)⟩

end TSDB

namespace TSDB

/-! ## The create path: `findOrCreatePartition` -/

/-- A config that the resolver returns belongs to a registered entry that matches the
candidate and is at least as long as every match. -/
theorem configFor_ok_mem_longest {α : Type} (l : List (Bytes × α)) (ns sk : Bytes) (v : α)
    (h : configFor l ns sk = .ok v) :
    ∃ k, (k, v) ∈ l ∧ k <+: ns ++ [tilde] ++ sk ∧ 0 < k.length ∧
      ∀ e ∈ l, e.1 <+: ns ++ [tilde] ++ sk → e.1.length ≤ k.length := by
  rcases configFor_cases l ns sk with ⟨herr, _⟩ | ⟨l₁, k, v', l₂, rfl, hk, hpos, hok, h₁, h₂⟩
  · rw [herr] at h; cases h
  · rw [hok] at h
    cases h
    refine ⟨k, by simp, hk, hpos, ?_⟩
    intro e he hp
    rcases List.mem_append.1 he with he | he
    · exact Nat.le_of_lt (h₁ e he hp)
    · rcases List.mem_cons.1 he with rfl | he
      · exact Nat.le_refl _
      · exact h₂ e he hp

/-- The resolver returns a config when some non-empty registered key matches. -/
theorem configFor_ok_of_match {α : Type} (l : List (Bytes × α)) (ns sk : Bytes)
    (h : ∃ e ∈ l, e.1 <+: ns ++ [tilde] ++ sk ∧ 0 < e.1.length) :
    ∃ v, configFor l ns sk = .ok v := by
  obtain ⟨e, he, hp, hpos⟩ := h
  rcases configFor_cases l ns sk with ⟨_, hzero⟩ | ⟨_, _, v, _, _, _, _, hok, _, _⟩
  · have := hzero e he hp
    omega
  · exact ⟨v, hok⟩

/-- The call on a key that the registry holds: the stored handle, nothing else done. -/
theorem findOrCreate_of_some {State Handle : Type} (env : Collaborators State Handle)
    (node : TSDBNode Handle) (ns sk : Bytes) (pk : SHA1Hash) (h : Handle)
    (hf : Registry.find node.partitions_ (findOrCreatePartition.key ns pk) = some h) :
    findOrCreatePartition env node ns sk pk = (.ok h, node, []) := by
  simp only [findOrCreatePartition, hf]

/-- The call on a key that the registry does not hold, with a config that resolves and a
`Partition::create` that succeeds. -/
theorem findOrCreate_of_created {State Handle : Type} (env : Collaborators State Handle)
    (node : TSDBNode Handle) (ns sk : Bytes) (pk : SHA1Hash) (config : StreamConfig)
    (partition : Handle)
    (hf : Registry.find node.partitions_ (findOrCreatePartition.key ns pk) = none)
    (hcfg : configFor node.configs_ ns sk = .ok config)
    (hcr : env.create pk sk config = .ok partition) :
    findOrCreatePartition env node ns sk pk =
      (.ok partition,
        { node with
          partitions_ := node.partitions_ ++ [(findOrCreatePartition.key ns pk, partition)] },
        [.configFor ns sk, .partitionCreate pk sk config]) := by
  simp only [findOrCreatePartition, hf, hcfg, hcr, emplace_of_absent _ _ _ hf]

/-- Repeated calls on a key that the registry holds all return the stored handle and do
nothing else. -/
theorem findOrCreateRepeated_of_some {State Handle : Type} (env : Collaborators State Handle)
    (node : TSDBNode Handle) (ns sk : Bytes) (pk : SHA1Hash) (h : Handle) (n : Nat)
    (hf : Registry.find node.partitions_ (findOrCreatePartition.key ns pk) = some h) :
    findOrCreateRepeated env ns sk pk node n = (List.replicate n (.ok h), node, []) := by
  induction n with
  | zero => rfl
  | succ n ih =>
    simp only [findOrCreateRepeated, findOrCreate_of_some env node ns sk pk h hf, ih,
      List.replicate_succ, List.append_nil]

/-! ### Claims on the create path -/

/-- C11: for a registry that already contains the composite key
`namespace ++ "~" ++ partition_key_bytes`, `findOrCreatePartition` returns exactly the stored
handle, calls neither `configFor` nor `Partition::create` (it makes no call at all), and
leaves the node unchanged, for every stream key, resolvable or not. -/
theorem findOrCreatePartition_existing {State Handle : Type}
    (env : Collaborators State Handle) (node : TSDBNode Handle) (ns sk : Bytes)
    (pk : SHA1Hash) (h : Handle)
    (hf : Registry.find node.partitions_ (ns ++ [tilde] ++ pk.bytes) = some h) :
    findOrCreatePartition env node ns sk pk = (.ok h, node, []) :=
  findOrCreate_of_some env node ns sk pk h hf

/-- Witness of C11: the registry holds `"ns1~" ++ k1`; a call with the stream key
`"nothing"`, for which no config is registered, returns the stored handle. -/
theorem findOrCreatePartition_existing_witness :
    (∀ e ∈ recoveredNode.configs_, ¬ e.1 <+: ascii "ns1" ++ [tilde] ++ ascii "nothing") ∧
    findOrCreatePartition demoEnv recoveredNode (ascii "ns1") (ascii "nothing") ⟨k1⟩ =
      (.ok ns1Handle, recoveredNode, []) :=
  ⟨by decide,
   findOrCreatePartition_existing demoEnv recoveredNode (ascii "ns1") (ascii "nothing") ⟨k1⟩
     ns1Handle rfl⟩

/-- C12: for a registry that does not contain the composite key, on a configuration list
built by `configurePrefix`: if some registered composite key is a prefix of
`namespace ++ "~" ++ stream_key` and `Partition::create` succeeds, then
`findOrCreatePartition` succeeds, the returned handle is the one created with
`(partition_key, stream_key, configFor(namespace, stream_key))`, that config being the
resolver's longest match, and the registry afterwards is the old registry plus exactly one
new binding, from `namespace ++ "~" ++ partition_key_bytes` to that handle. -/
theorem findOrCreatePartition_creates {State Handle : Type}
    (env : Collaborators State Handle) (calls : List (Bytes × StreamConfig))
    (reg : Registry Handle) (ns sk : Bytes) (pk : SHA1Hash)
    (habs : Registry.find reg (ns ++ [tilde] ++ pk.bytes) = none)
    (hmatch : ∃ e ∈ configureAll calls, e.1 <+: ns ++ [tilde] ++ sk)
    (hcreate : ∀ config, configFor (configureAll calls) ns sk = .ok config →
      ∃ partition, env.create pk sk config = .ok partition) :
    ∃ config partition,
      configFor (configureAll calls) ns sk = .ok config ∧
      (∃ k, (k, config) ∈ configureAll calls ∧ k <+: ns ++ [tilde] ++ sk ∧
        ∀ e ∈ configureAll calls, e.1 <+: ns ++ [tilde] ++ sk → e.1.length ≤ k.length) ∧
      env.create pk sk config = .ok partition ∧
      findOrCreatePartition env ⟨configureAll calls, reg⟩ ns sk pk =
        (.ok partition,
          ⟨configureAll calls, reg ++ [(ns ++ [tilde] ++ pk.bytes, partition)]⟩,
          [.configFor ns sk, .partitionCreate pk sk config]) ∧
      ∀ key, Registry.find (reg ++ [(ns ++ [tilde] ++ pk.bytes, partition)]) key =
        if key = ns ++ [tilde] ++ pk.bytes then some partition else Registry.find reg key := by
  obtain ⟨e, he, hp⟩ := hmatch
  obtain ⟨config, hcfg⟩ := configFor_ok_of_match (configureAll calls) ns sk
    ⟨e, he, hp, configureAll_key_pos calls e he⟩
  obtain ⟨partition, hcr⟩ := hcreate config hcfg
  obtain ⟨k, hmem, hk, _, hmax⟩ := configFor_ok_mem_longest _ ns sk config hcfg
  refine ⟨config, partition, hcfg, ⟨k, hmem, hk, hmax⟩, hcr,
    findOrCreate_of_created env ⟨configureAll calls, reg⟩ ns sk pk config partition habs hcfg hcr,
    ?_⟩
  intro key
  rw [find_append]
  by_cases hkey : key = ns ++ [tilde] ++ pk.bytes
  · rw [if_pos hkey, hkey, habs]
    simp [Registry.find]
  · rw [if_neg hkey]
    cases hfind : Registry.find reg key with
    | none =>
      have hne : ¬ ns ++ [tilde] ++ pk.bytes = key := fun h => hkey h.symm
      simp only [Registry.find, if_neg hne]
    | some h => rfl

/-- Witness of C12: after recovery has put `"ns1~" ++ k1` into the registry, a call for the
new partition key `k2` under the registered prefix `"events"` creates the partition with
the `"events"` config and adds the one binding `"ns1~" ++ k2`. -/
theorem findOrCreatePartition_creates_witness :
    findOrCreatePartition demoEnv recoveredNode (ascii "ns1") (ascii "events-9") ⟨k2⟩ =
      (.ok ⟨k2, ascii "events-9", eventsCfg⟩,
        ⟨ns1Configs,
          [(ascii "ns1" ++ [tilde] ++ k1, ns1Handle),
           (ascii "ns1" ++ [tilde] ++ k2, ⟨k2, ascii "events-9", eventsCfg⟩)]⟩,
        [.configFor (ascii "ns1") (ascii "events-9"),
         .partitionCreate ⟨k2⟩ (ascii "events-9") eventsCfg]) ∧
    ∃ config partition,
      configFor (configureAll [(ascii "ns1", eventsCfg)]) (ascii "ns1") (ascii "events-9") =
        .ok config ∧
      (∃ k, (k, config) ∈ configureAll [(ascii "ns1", eventsCfg)] ∧
        k <+: ascii "ns1" ++ [tilde] ++ ascii "events-9" ∧
        ∀ e ∈ configureAll [(ascii "ns1", eventsCfg)],
          e.1 <+: ascii "ns1" ++ [tilde] ++ ascii "events-9" → e.1.length ≤ k.length) ∧
      demoEnv.create ⟨k2⟩ (ascii "events-9") config = .ok partition ∧
      findOrCreatePartition demoEnv
          ⟨configureAll [(ascii "ns1", eventsCfg)], recoveredNode.partitions_⟩
          (ascii "ns1") (ascii "events-9") ⟨k2⟩ =
        (.ok partition,
          ⟨configureAll [(ascii "ns1", eventsCfg)],
            recoveredNode.partitions_ ++ [(ascii "ns1" ++ [tilde] ++ k2, partition)]⟩,
          [.configFor (ascii "ns1") (ascii "events-9"),
           .partitionCreate ⟨k2⟩ (ascii "events-9") config]) ∧
      ∀ key, Registry.find
          (recoveredNode.partitions_ ++ [(ascii "ns1" ++ [tilde] ++ k2, partition)]) key =
        if key = ascii "ns1" ++ [tilde] ++ k2 then some partition
        else Registry.find recoveredNode.partitions_ key :=
  ⟨rfl,
   findOrCreatePartition_creates demoEnv [(ascii "ns1", eventsCfg)] recoveredNode.partitions_
     (ascii "ns1") (ascii "events-9") ⟨k2⟩ rfl
     ⟨(ascii "ns1" ++ [tilde] ++ ascii "events", eventsCfg), by decide, by decide⟩
     (fun config _ => ⟨⟨k2, ascii "events-9", config⟩, rfl⟩)⟩

end TSDB

namespace TSDB

/-- C13: `findOrCreatePartition` fails if and only if the composite key is absent from the
registry and either `configFor(namespace, stream_key)` fails or `Partition::create` (on the
resolved config) fails; and whenever it fails, the node, registry included, is exactly
what it was before the call. -/
theorem findOrCreatePartition_fails_iff {State Handle : Type}
    (env : Collaborators State Handle) (node : TSDBNode Handle) (ns sk : Bytes)
    (pk : SHA1Hash) :
    ((∃ e, (findOrCreatePartition env node ns sk pk).1 = .error e) ↔
      Registry.find node.partitions_ (ns ++ [tilde] ++ pk.bytes) = none ∧
      ((∃ e, configFor node.configs_ ns sk = .error e) ∨
        ∃ config e, configFor node.configs_ ns sk = .ok config ∧
          env.create pk sk config = .error e)) ∧
    (∀ e, (findOrCreatePartition env node ns sk pk).1 = .error e →
      (findOrCreatePartition env node ns sk pk).2.1 = node) := by
  cases hf : Registry.find node.partitions_ (ns ++ [tilde] ++ pk.bytes) with
  | some h =>
    have hval : findOrCreatePartition env node ns sk pk = (.ok h, node, []) := by
      simp only [findOrCreatePartition, findOrCreatePartition.key, hf]
    rw [hval]
    simp
  | none =>
    cases hcfg : configFor node.configs_ ns sk with
    | error e₁ =>
      have hval : findOrCreatePartition env node ns sk pk =
          (.error e₁, node, [.configFor ns sk]) := by
        simp only [findOrCreatePartition, findOrCreatePartition.key, hf, hcfg]
      rw [hval]
      simp
    | ok config =>
      cases hcr : env.create pk sk config with
      | error e₂ =>
        have hval : findOrCreatePartition env node ns sk pk =
            (.error e₂, node, [.configFor ns sk, .partitionCreate pk sk config]) := by
          simp only [findOrCreatePartition, findOrCreatePartition.key, hf, hcfg, hcr]
        rw [hval]
        simp [hcr]
      | ok partition =>
        have hval := findOrCreate_of_created env node ns sk pk config partition hf hcfg hcr
        rw [hval]
        simp [hcr]

/-- Witness of C13: with a `Partition::create` that throws, a call for a key that the
registry does not hold fails and the node is what it was. -/
theorem findOrCreatePartition_fails_iff_witness :
    (∃ e, (findOrCreatePartition noCreateEnv recoveredNode (ascii "ns1") (ascii "events-9")
      ⟨k2⟩).1 = .error e) ∧
    (findOrCreatePartition noCreateEnv recoveredNode (ascii "ns1") (ascii "events-9")
      ⟨k2⟩).2.1 = recoveredNode :=
  ⟨(findOrCreatePartition_fails_iff noCreateEnv recoveredNode (ascii "ns1") (ascii "events-9")
      ⟨k2⟩).1.2 ⟨rfl, Or.inr ⟨eventsCfg, .collaborator 2, rfl, rfl⟩⟩,
   (findOrCreatePartition_fails_iff noCreateEnv recoveredNode (ascii "ns1") (ascii "events-9")
      ⟨k2⟩).2 (.collaborator 2) rfl⟩

/-- C14: at most one handle per partition. `n ≥ 1` calls of `findOrCreatePartition` with
the same `(namespace, stream_key, partition_key)` on an empty registry, their bodies run
one after the other, with a config that resolves and a `Partition::create` that succeeds,
make exactly one call of `Partition::create`, and all `n` calls return that one handle,
which is the only entry of the registry afterwards. -/
theorem findOrCreateRepeated_one_create {State Handle : Type}
    (env : Collaborators State Handle) (configs_ : List (Bytes × StreamConfig))
    (ns sk : Bytes) (pk : SHA1Hash) (config : StreamConfig) (partition : Handle) (n : Nat)
    (hn : 1 ≤ n) (hcfg : configFor configs_ ns sk = .ok config)
    (hcr : env.create pk sk config = .ok partition) :
    (findOrCreateRepeated env ns sk pk ⟨configs_, []⟩ n).1 =
      List.replicate n (.ok partition) ∧
    (findOrCreateRepeated env ns sk pk ⟨configs_, []⟩ n).2.2 =
      [.configFor ns sk, .partitionCreate pk sk config] ∧
    ((findOrCreateRepeated env ns sk pk ⟨configs_, []⟩ n).2.2.filter Event.isCreate).length = 1 ∧
    (findOrCreateRepeated env ns sk pk ⟨configs_, []⟩ n).2.1.partitions_ =
      [(ns ++ [tilde] ++ pk.bytes, partition)] := by
  obtain ⟨m, rfl⟩ : ∃ m, n = m + 1 := ⟨n - 1, by omega⟩
  have hfirst := findOrCreate_of_created env ⟨configs_, []⟩ ns sk pk config partition
    rfl hcfg hcr
  have hrest := findOrCreateRepeated_of_some env
    ⟨configs_, [] ++ [(findOrCreatePartition.key ns pk, partition)]⟩ ns sk pk partition m
    (by simp [Registry.find])
  simp only [findOrCreateRepeated, hfirst, hrest, List.replicate_succ, List.append_nil]
  refine ⟨?_, ?_, ?_, ?_⟩ <;> trivial

/-- Witness of C14: three calls for `("ns1", "events-9", k2)` on an empty registry. -/
theorem findOrCreateRepeated_one_create_witness :
    (findOrCreateRepeated demoEnv (ascii "ns1") (ascii "events-9") ⟨k2⟩ ⟨ns1Configs, []⟩ 3).1 =
      List.replicate 3 (.ok ⟨k2, ascii "events-9", eventsCfg⟩) ∧
    (findOrCreateRepeated demoEnv (ascii "ns1") (ascii "events-9") ⟨k2⟩ ⟨ns1Configs, []⟩ 3).2.2 =
      [.configFor (ascii "ns1") (ascii "events-9"),
       .partitionCreate ⟨k2⟩ (ascii "events-9") eventsCfg] ∧
    ((findOrCreateRepeated demoEnv (ascii "ns1") (ascii "events-9") ⟨k2⟩
      ⟨ns1Configs, []⟩ 3).2.2.filter Event.isCreate).length = 1 ∧
    (findOrCreateRepeated demoEnv (ascii "ns1") (ascii "events-9") ⟨k2⟩
      ⟨ns1Configs, []⟩ 3).2.1.partitions_ =
      [(ascii "ns1" ++ [tilde] ++ k2, ⟨k2, ascii "events-9", eventsCfg⟩)] :=
  findOrCreateRepeated_one_create demoEnv ns1Configs (ascii "ns1") (ascii "events-9") ⟨k2⟩
    eventsCfg ⟨k2, ascii "events-9", eventsCfg⟩ 3 (by decide) rfl rfl

/-- C15: registry bindings are permanent. For every node state and every operation
(`configurePrefix`, `reopenPartitions`, `findOrCreatePartition`), returning or raising,
every composite key bound to a handle before the operation is bound to the same handle
after it. -/
theorem registry_bindings_permanent {State Handle : Type}
    (env : Collaborators State Handle) (node : TSDBNode Handle) (op : Operation)
    (key : Bytes) (h : Handle) (hf : Registry.find node.partitions_ key = some h) :
    Registry.find (Operation.run env node op).partitions_ key = some h := by
  cases op with
  | configurePrefix stream_ns config => exact hf
  | reopenPartitions rows => exact reopen_find_of_some env node rows key h hf
  | findOrCreatePartition ns sk pk =>
    simp only [Operation.run, findOrCreatePartition]
    split
    · exact hf
    · split
      · exact hf
      · split
        · exact hf
        · exact find_emplace_of_some node.partitions_ key _ _ h hf

/-- Witness of C15: the binding of `"ns1~" ++ k1` stays through a recovery scan that meets
the same key again and then a corrupt row. -/
theorem registry_bindings_permanent_witness :
    Registry.find recoveredNode.partitions_ (ascii "ns1" ++ [tilde] ++ k1) = some ns1Handle ∧
    Registry.find
      (Operation.run demoEnv recoveredNode (.reopenPartitions [ns1RowAgain, corruptRow])).partitions_
      (ascii "ns1" ++ [tilde] ++ k1) = some ns1Handle :=
  ⟨rfl,
   registry_bindings_permanent demoEnv recoveredNode (.reopenPartitions [ns1RowAgain, corruptRow])
     (ascii "ns1" ++ [tilde] ++ k1) ns1Handle rfl⟩

end TSDB

namespace TSDB

/-! ## The transaction of the scan, and `start` -/

/-- The loop with the cursor calls computes what `reopenPartitions` computes. -/
theorem loop_result {State Handle : Type} (env : Collaborators State Handle)
    (node : TSDBNode Handle) (i : Nat) (rows : List Row) :
    (reopenPartitions.loop env node i rows).1 = reopenPartitions env node rows := by
  induction rows generalizing node i with
  | nil => rfl
  | cons kv rest ih =>
    rw [reopen_cons]
    simp only [reopenPartitions.loop]
    rcases reopenPartitions.row env node kv with ⟨e | _, node'⟩
    · rfl
    · exact ih node' (i + 1)

/-- The loop calls nothing on the index but `getFirst` and `getNext`. -/
theorem loop_calls {State Handle : Type} (env : Collaborators State Handle)
    (node : TSDBNode Handle) (i : Nat) (rows : List Row) :
    ∀ c ∈ (reopenPartitions.loop env node i rows).2, c = .getFirst ∨ c = .getNext := by
  have hcall : ∀ j : Nat, (if j = 0 then Event.getFirst else Event.getNext) = .getFirst ∨
      (if j = 0 then Event.getFirst else Event.getNext) = .getNext := by
    intro j
    by_cases hj : j = 0
    · exact Or.inl (if_pos hj)
    · exact Or.inr (if_neg hj)
  induction rows generalizing node i with
  | nil =>
    intro c hc
    simp only [reopenPartitions.loop, List.mem_singleton] at hc
    rw [hc]; exact hcall i
  | cons kv rest ih =>
    intro c hc
    simp only [reopenPartitions.loop] at hc
    rcases hrow : reopenPartitions.row env node kv with ⟨e | _, node'⟩
    · rw [hrow] at hc
      rw [List.mem_singleton.1 hc]; exact hcall i
    · rw [hrow] at hc
      rcases List.mem_cons.1 hc with hc | hc
      · rw [hc]; exact hcall i
      · exact ih node' (i + 1) c hc

/-- The function with its index calls computes what `reopenPartitions` computes. -/
theorem logged_result {State Handle : Type} (env : Collaborators State Handle)
    (node : TSDBNode Handle) (rows : List Row) :
    (reopenPartitions.logged env node rows).1 = reopenPartitions env node rows := by
  have h := loop_result env node 0 rows
  unfold reopenPartitions.logged
  rcases hloop : reopenPartitions.loop env node 0 rows with ⟨⟨e | _, node'⟩, calls⟩
  · rw [hloop] at h; exact h
  · rw [hloop] at h; exact h

/-- The index calls of `reopenPartitions`: the two opening calls, the cursor calls of the
loop and, when no exception is raised, the two closing calls. -/
theorem logged_calls {State Handle : Type} (env : Collaborators State Handle)
    (node : TSDBNode Handle) (rows : List Row) :
    ∃ calls closing, (∀ c ∈ calls, c = Event.getFirst ∨ c = Event.getNext) ∧
      (∀ c ∈ closing, c = Event.cursorClose ∨ c = Event.txnAbort) ∧
      ((reopenPartitions env node rows).1 = .ok () →
        closing = [.cursorClose, .txnAbort]) ∧
      (reopenPartitions.logged env node rows).2 =
        [.startTransaction false, .getCursor] ++ calls ++ closing := by
  have h := loop_result env node 0 rows
  have hc := loop_calls env node 0 rows
  unfold reopenPartitions.logged
  rcases hloop : reopenPartitions.loop env node 0 rows with ⟨⟨e | _, node'⟩, calls⟩
  · rw [hloop] at h hc
    refine ⟨calls, [], hc, by simp, ?_, by simp⟩
    intro hok
    rw [← h] at hok
    cases hok
  · rw [hloop] at hc
    exact ⟨calls, [.cursorClose, .txnAbort], hc, by simp, fun _ => rfl, rfl⟩

theorem startBack_append (workers : List Worker) (w : Worker) :
    startBack (workers ++ [w]) = workers ++ [⟨w.starts + 1⟩] := by
  simp [startBack]

/-- The first loop of `start` within the range of its counter, in closed form: from the
counter value `i` it constructs and starts the remaining `num - i` workers. -/
theorem compaction_eq (num : Nat) (hnum : num ≤ INT_MAX) (pools : WorkerPools) (i : Nat)
    (hi : i ≤ num) :
    start.compaction num pools i =
      some (⟨pools.compaction_workers_ ++ List.replicate (num - i) ⟨1⟩,
          pools.replication_workers_⟩,
        workerCalls .newCompactionWorker .startCompactionWorker (num - i)) := by
  obtain ⟨k, hk⟩ : ∃ k, num - i = k := ⟨_, rfl⟩
  induction k generalizing i pools with
  | zero =>
    have hge : ¬ i < num := by omega
    rw [start.compaction, if_neg hge, hk]
    simp [workerCalls]
  | succ k ih =>
    have hlt : i < num := by omega
    have hne : ¬ i = INT_MAX := by omega
    have hk' : num - (i + 1) = k := by omega
    rw [start.compaction, if_pos hlt, if_neg hne, ih _ (i + 1) (by omega) hk', hk', hk]
    simp [startBack_append, workerCalls, List.replicate_succ]

/-- The second loop of `start` within the range of its counter, in closed form. -/
theorem replication_eq (num : Nat) (hnum : num ≤ INT_MAX) (pools : WorkerPools) (i : Nat)
    (hi : i ≤ num) :
    start.replication num pools i =
      some (⟨pools.compaction_workers_,
          pools.replication_workers_ ++ List.replicate (num - i) ⟨1⟩⟩,
        workerCalls .newReplicationWorker .startReplicationWorker (num - i)) := by
  obtain ⟨k, hk⟩ : ∃ k, num - i = k := ⟨_, rfl⟩
  induction k generalizing i pools with
  | zero =>
    have hge : ¬ i < num := by omega
    rw [start.replication, if_neg hge, hk]
    simp [workerCalls]
  | succ k ih =>
    have hlt : i < num := by omega
    have hne : ¬ i = INT_MAX := by omega
    have hk' : num - (i + 1) = k := by omega
    rw [start.replication, if_pos hlt, if_neg hne, ih _ (i + 1) (by omega) hk', hk', hk]
    simp [startBack_append, workerCalls, List.replicate_succ]

/-- With a thread count above `INT_MAX` the counter of the first loop reaches `INT_MAX` with
the loop condition still true, and `++i` overflows. -/
theorem compaction_overflow (num : Nat) (hnum : INT_MAX < num) (pools : WorkerPools) (i : Nat)
    (hi : i ≤ INT_MAX) : start.compaction num pools i = none := by
  obtain ⟨k, hk⟩ : ∃ k, INT_MAX - i = k := ⟨_, rfl⟩
  induction k generalizing i pools with
  | zero =>
    have hlt : i < num := by omega
    have heq : i = INT_MAX := by omega
    rw [start.compaction, if_pos hlt, if_pos heq]
  | succ k ih =>
    have hlt : i < num := by omega
    have hne : ¬ i = INT_MAX := by omega
    rw [start.compaction, if_pos hlt, if_neg hne, ih _ (i + 1) (by omega) (by omega)]

/-- With a thread count above `INT_MAX` the counter of the second loop overflows. -/
theorem replication_overflow (num : Nat) (hnum : INT_MAX < num) (pools : WorkerPools) (i : Nat)
    (hi : i ≤ INT_MAX) : start.replication num pools i = none := by
  obtain ⟨k, hk⟩ : ∃ k, INT_MAX - i = k := ⟨_, rfl⟩
  induction k generalizing i pools with
  | zero =>
    have hlt : i < num := by omega
    have heq : i = INT_MAX := by omega
    rw [start.replication, if_pos hlt, if_pos heq]
  | succ k ih =>
    have hlt : i < num := by omega
    have hne : ¬ i = INT_MAX := by omega
    rw [start.replication, if_pos hlt, if_neg hne, ih _ (i + 1) (by omega) (by omega)]

/-- When recovery completes and the compaction thread count is above `INT_MAX`, `start`
runs into the overflow of its first loop counter. -/
theorem start_of_overflow {State Handle : Type} (env : Collaborators State Handle)
    (node : TSDBNode Handle) (pools : WorkerPools) (rows : List Row) (c r : Nat)
    (hok : (reopenPartitions env node rows).1 = .ok ()) (hc : INT_MAX < c) :
    start env node pools rows c r = none := by
  have hres := logged_result env node rows
  unfold start
  rcases hlog : reopenPartitions.logged env node rows with ⟨⟨e' | _, node'⟩, calls⟩
  · rw [hlog] at hres
    rw [← hres] at hok
    cases hok
  · simp only [compaction_overflow c hc pools 0 (Nat.zero_le _)]

end TSDB

namespace TSDB

/-! ### Claims on the transaction of the scan and on `start` -/

/-- C16 (as the code has it): the recovery scan touches the persistent index through one
transaction, which it opens with `startTransaction(false)`, that is, not read-only. Its
calls are `startTransaction(false)`, `getCursor()` and then cursor reads only; it makes no
writing call and no other `startTransaction`; and when it completes it closes the cursor
and then aborts the transaction, as its last two calls. -/
theorem reopenPartitions_transaction {State Handle : Type}
    (env : Collaborators State Handle) (node : TSDBNode Handle) (rows : List Row) :
    (∃ calls, (reopenPartitions.logged env node rows).2 =
        .startTransaction false :: .getCursor :: calls ∧
      ∀ c ∈ calls, ∀ readonly, c ≠ .startTransaction readonly) ∧
    (∀ c ∈ (reopenPartitions.logged env node rows).2, c.writesIndex = false) ∧
    ((reopenPartitions.logged env node rows).1.1 = .ok () →
      ∃ calls, (∀ c ∈ calls, c = Event.getFirst ∨ c = Event.getNext) ∧
        (reopenPartitions.logged env node rows).2 =
          [.startTransaction false, .getCursor] ++ calls ++ [.cursorClose, .txnAbort]) := by
  obtain ⟨calls, closing, hcalls, hclosing, hdone, hlog⟩ := logged_calls env node rows
  refine ⟨⟨calls ++ closing, by rw [hlog]; simp, ?_⟩, ?_, ?_⟩
  · intro c hc readonly
    rcases List.mem_append.1 hc with hc | hc
    · rcases hcalls c hc with rfl | rfl <;> exact fun h => Event.noConfusion h
    · rcases hclosing c hc with rfl | rfl <;> exact fun h => Event.noConfusion h
  · intro c hc
    rw [hlog] at hc
    rcases List.mem_append.1 hc with hc | hc
    · rcases List.mem_append.1 hc with hc | hc
      · simp only [List.mem_cons, List.mem_singleton, List.not_mem_nil, or_false] at hc
        rcases hc with rfl | rfl <;> rfl
      · rcases hcalls c hc with rfl | rfl <;> rfl
    · rcases hclosing c hc with rfl | rfl <;> rfl
  · intro hok
    rw [logged_result] at hok
    exact ⟨calls, hcalls, by rw [hlog, hdone hok]⟩

/-- Witness of C16 (as the code has it): the calls of a scan over a metadata row and a
partition row. -/
theorem reopenPartitions_transaction_witness :
    (reopenPartitions.logged demoEnv ⟨ns1Configs, []⟩ [metaRow, ns1Row]).1.1 = .ok () ∧
    ∃ calls, (∀ c ∈ calls, c = Event.getFirst ∨ c = Event.getNext) ∧
      (reopenPartitions.logged demoEnv ⟨ns1Configs, []⟩ [metaRow, ns1Row]).2 =
        [.startTransaction false, .getCursor] ++ calls ++ [.cursorClose, .txnAbort] :=
  ⟨rfl, (reopenPartitions_transaction demoEnv ⟨ns1Configs, []⟩ [metaRow, ns1Row]).2.2 rfl⟩

/-- Counterexample to C16 as stated: on an index with one partition row the scan opens its
transaction with `startTransaction(false)`; no call `startTransaction(true)` is made. -/
theorem reopenPartitions_readonly_counterexample :
    (reopenPartitions.logged demoEnv ⟨ns1Configs, []⟩ [ns1Row]).2 =
      [.startTransaction false, .getCursor, .getFirst, .getNext, .cursorClose, .txnAbort] ∧
    Event.startTransaction true ∉ (reopenPartitions.logged demoEnv ⟨ns1Configs, []⟩ [ns1Row]).2 :=
  ⟨by decide, by decide⟩

/-- Within the range of the `int` loop counters, `start(c, r)` runs recovery to completion
before any worker exists. The calls of `start` are all the calls of `reopenPartitions`,
none of which constructs or starts a worker, followed by the worker calls. If
`reopenPartitions` raises, `start` raises the same exception with no worker constructed
or started, whatever the thread counts; otherwise, for `c` and `r` up to `INT_MAX`,
exactly `c` compaction workers and then exactly `r` replication workers are constructed,
each started once, right after its construction. -/
theorem start_recovers_before_workers {State Handle : Type}
    (env : Collaborators State Handle) (node : TSDBNode Handle) (pools : WorkerPools)
    (rows : List Row) (c r : Nat) :
    (∀ ev ∈ (reopenPartitions.logged env node rows).2, ev.isWorker = false) ∧
    (∀ e, (reopenPartitions env node rows).1 = .error e →
      start env node pools rows c r =
        some ((.error e, (reopenPartitions env node rows).2, pools),
          (reopenPartitions.logged env node rows).2)) ∧
    (c ≤ INT_MAX → r ≤ INT_MAX → (reopenPartitions env node rows).1 = .ok () →
      start env node pools rows c r =
        some ((.ok (), (reopenPartitions env node rows).2,
            ⟨pools.compaction_workers_ ++ List.replicate c ⟨1⟩,
             pools.replication_workers_ ++ List.replicate r ⟨1⟩⟩),
          (reopenPartitions.logged env node rows).2 ++
            workerCalls .newCompactionWorker .startCompactionWorker c ++
            workerCalls .newReplicationWorker .startReplicationWorker r)) := by
  have hres := logged_result env node rows
  refine ⟨?_, ?_, ?_⟩
  · obtain ⟨calls, closing, hcalls, hclosing, _, hlog⟩ := logged_calls env node rows
    intro ev hev
    rw [hlog] at hev
    rcases List.mem_append.1 hev with hev | hev
    · rcases List.mem_append.1 hev with hev | hev
      · simp only [List.mem_cons, List.mem_singleton, List.not_mem_nil, or_false] at hev
        rcases hev with rfl | rfl <;> rfl
      · rcases hcalls ev hev with rfl | rfl <;> rfl
    · rcases hclosing ev hev with rfl | rfl <;> rfl
  · intro e he
    unfold start
    rcases hlog : reopenPartitions.logged env node rows with ⟨⟨e' | _, node'⟩, calls⟩
    · rw [hlog] at hres
      rw [← hres] at he ⊢
      cases he
      rfl
    · rw [hlog] at hres
      rw [← hres] at he
      cases he
  · intro hc hr hok
    unfold start
    rcases hlog : reopenPartitions.logged env node rows with ⟨⟨e' | _, node'⟩, calls⟩
    · rw [hlog] at hres
      rw [← hres] at hok
      cases hok
    · rw [hlog] at hres
      rw [← hres]
      simp only [compaction_eq c hc pools 0 (Nat.zero_le _),
        replication_eq r hr _ 0 (Nat.zero_le _), Nat.sub_zero]

/-- An instance within the range of the counters: `start(2, 1)` on an index with one
partition row, and on an index whose second row is corrupt. -/
theorem start_recovers_before_workers_witness :
    start demoEnv ⟨ns1Configs, []⟩ ⟨[], []⟩ [ns1Row] 2 1 =
      some ((.ok (), recoveredNode, ⟨[⟨1⟩, ⟨1⟩], [⟨1⟩]⟩),
        [.startTransaction false, .getCursor, .getFirst, .getNext, .cursorClose, .txnAbort,
         .newCompactionWorker, .startCompactionWorker,
         .newCompactionWorker, .startCompactionWorker,
         .newReplicationWorker, .startReplicationWorker]) ∧
    start demoEnv ⟨ns1Configs, []⟩ ⟨[], []⟩ [ns1Row, corruptRow] 2 1 =
      some ((.error (.invalidPartitionKey corruptRow.1), recoveredNode, ⟨[], []⟩),
        (reopenPartitions.logged demoEnv ⟨ns1Configs, []⟩ [ns1Row, corruptRow]).2) :=
  ⟨(start_recovers_before_workers demoEnv ⟨ns1Configs, []⟩ ⟨[], []⟩ [ns1Row] 2 1).2.2
      (by decide) (by decide) rfl,
   (start_recovers_before_workers demoEnv ⟨ns1Configs, []⟩ ⟨[], []⟩ [ns1Row, corruptRow]
      2 1).2.1 _ rfl⟩

/-- C17 (the code at a thread count that its `int` counter cannot reach): on an empty index
recovery completes, and `start(2147483649, 0)` does not construct exactly 2147483649
compaction workers: the counter `int i` of the first loop reaches `INT_MAX` with
`i < num_compaction_threads` still true, and `++i` overflows, which is undefined
behaviour. -/
theorem start_counter_overflow :
    (reopenPartitions demoEnv ⟨ns1Configs, []⟩ []).1 = .ok () ∧
    INT_MAX < 2147483649 ∧
    start demoEnv ⟨ns1Configs, []⟩ ⟨[], []⟩ [] 2147483649 0 = none :=
  ⟨rfl, by decide,
   start_of_overflow demoEnv ⟨ns1Configs, []⟩ ⟨[], []⟩ [] 2147483649 0 rfl (by decide)⟩

end TSDB

namespace TSDB

/-! ## Namespaces, keys and registration -/

/-- A registered key `ns' ++ "~" ++ p` matches the candidate `ns ++ "~" ++ sk`, neither
namespace holding a `~`, only if the namespaces are equal and `p` is a prefix of `sk`. -/
theorem prefix_same_namespace (ns' ns p sk : Bytes) (hns' : tilde ∉ ns') (hns : tilde ∉ ns)
    (h : ns' ++ tilde :: p <+: ns ++ tilde :: sk) : ns' = ns ∧ p <+: sk := by
  induction ns' generalizing ns with
  | nil =>
    cases ns with
    | nil =>
      exact ⟨rfl, (List.cons_prefix_cons.1 h).2⟩
    | cons b bs =>
      have hb : tilde = b := (List.cons_prefix_cons.1 h).1
      exact absurd (by rw [hb]; exact List.mem_cons_self _ _) hns
  | cons a as ih =>
    cases ns with
    | nil =>
      have ha : a = tilde := (List.cons_prefix_cons.1 h).1
      exact absurd (by rw [ha]; exact List.mem_cons_self _ _) hns'
    | cons b bs =>
      obtain ⟨hab, hrest⟩ := List.cons_prefix_cons.1 h
      obtain ⟨heq, hp⟩ := ih bs (fun hm => hns' (List.mem_cons_of_mem _ hm))
        (fun hm => hns (List.mem_cons_of_mem _ hm)) hrest
      exact ⟨by rw [hab, heq], hp⟩

/-- The first `~` of a string that starts with a namespace holding a `~` lies inside the
namespace. -/
theorem find_inside_namespace (ns rest : Bytes) (h : tilde ∈ ns) :
    ∃ off, StringUtil.find (ns ++ rest) tilde = some off ∧ off < ns.length := by
  induction ns with
  | nil => cases h
  | cons b bs ih =>
    by_cases hb : b = tilde
    · exact ⟨0, by simp [StringUtil.find, hb], by simp⟩
    · have hbs : tilde ∈ bs := by
        rcases List.mem_cons.1 h with h | h
        · exact absurd h.symm hb
        · exact h
      obtain ⟨off, hoff, hlt⟩ := ih hbs
      exact ⟨off + 1, by simp [StringUtil.find, hb, hoff], by simp; omega⟩

/-- The loop body of `reopenPartitions` on a row that is not skipped, by the split of
its key. -/
theorem row_eq_split {State Handle : Type} (env : Collaborators State Handle)
    (node : TSDBNode Handle) (kv : Row) (h : skippedKey kv.1 = false) :
    reopenPartitions.row env node kv =
      match reopenPartitions.split kv.1 with
      | none => (.error (.invalidPartitionKey kv.1), node)
      | some (tsdb_namespace, partition_key) =>
        match env.decode kv.2 with
        | .error e => (.error e, node)
        | .ok state =>
          match configFor node.configs_ tsdb_namespace (env.stream_key state) with
          | .error e => (.error e, node)
          | .ok config =>
            match env.reopen partition_key state config with
            | .error e => (.error e, node)
            | .ok partition =>
              (.ok (), { node with
                partitions_ := Registry.emplace node.partitions_ kv.1 partition }) := by
  obtain ⟨h0, h1⟩ := (skippedKey_eq_false _).1 h
  simp only [reopenPartitions.row, reopenPartitions.split, h0, h1, if_false]
  cases StringUtil.find kv.1 tilde <;> rfl

/-! ### Claims on namespaces, keys and registration -/

/-- C18: namespace isolation of the resolver. On a configuration list built by
`configurePrefix` in which no registered namespace contains a `~`, and for a query namespace
`ns` without `~`: only entries registered under `ns` match the candidate, the config that
`configFor(ns, stream_key)` returns was registered under exactly `ns`, and its
`stream_key_prefix` is a prefix of the stream key at least as long as every prefix of the
stream key registered under `ns`. -/
theorem configFor_namespace_isolation (calls : List (Bytes × StreamConfig)) (ns sk : Bytes)
    (config : StreamConfig) (hcalls : ∀ call ∈ calls, tilde ∉ call.1) (hns : tilde ∉ ns)
    (h : configFor (configureAll calls) ns sk = .ok config) :
    (ns, config) ∈ calls ∧
    StreamConfig.stream_key_prefix config <+: sk ∧
    (∀ call ∈ calls, call.1 = ns → StreamConfig.stream_key_prefix call.2 <+: sk →
      (StreamConfig.stream_key_prefix call.2).length ≤
        (StreamConfig.stream_key_prefix config).length) ∧
    (∀ call ∈ calls,
      call.1 ++ [tilde] ++ StreamConfig.stream_key_prefix call.2 <+: ns ++ [tilde] ++ sk →
        call.1 = ns) := by
  have hcand : ns ++ [tilde] ++ sk = ns ++ tilde :: sk := by simp
  have hkeyeq : ∀ call : Bytes × StreamConfig,
      call.1 ++ [tilde] ++ StreamConfig.stream_key_prefix call.2 =
        call.1 ++ tilde :: StreamConfig.stream_key_prefix call.2 := by
    intro call; simp
  obtain ⟨k, hmem, hk, _, hmax⟩ := configFor_ok_mem_longest _ ns sk config h
  rw [configureAll_eq_map] at hmem
  obtain ⟨call, hcall, heq⟩ := List.mem_map.1 hmem
  obtain ⟨hkey, hcfg⟩ := Prod.mk.inj heq
  rw [← hkey, hkeyeq, hcand] at hk
  obtain ⟨hnseq, hp⟩ := prefix_same_namespace _ _ _ _ (hcalls call hcall) hns hk
  refine ⟨?_, ?_, ?_, ?_⟩
  · rw [← hcfg, ← hnseq]; exact hcall
  · rw [← hcfg]; exact hp
  · intro call' hcall' hns' hp'
    have hmem' : (call'.1 ++ [tilde] ++ StreamConfig.stream_key_prefix call'.2, call'.2) ∈
        configureAll calls := by
      rw [configureAll_eq_map]
      exact List.mem_map_of_mem _ hcall'
    have hmatch : call'.1 ++ [tilde] ++ StreamConfig.stream_key_prefix call'.2 <+:
        ns ++ [tilde] ++ sk := by
      rw [hns']
      exact (List.prefix_append_right_inj _).2 hp'
    have hle : (call'.1 ++ [tilde] ++ StreamConfig.stream_key_prefix call'.2).length ≤
        k.length := hmax _ hmem' hmatch
    rw [← hkey] at hle
    rw [← hcfg]
    simp only [List.length_append, hns', hnseq] at hle
    omega
  · intro call' hcall' hmatch
    rw [hkeyeq, hcand] at hmatch
    exact (prefix_same_namespace _ _ _ _ (hcalls call' hcall') hns hmatch).1

/-- Witness of C18: `"x"` is registered under `"a"` and the longer `"xy"` under `"b"`; the
lookup of `("a", "xyz")` returns the config registered under `"a"`. -/
theorem configFor_namespace_isolation_witness :
    configFor (configureAll twoNamespaces) (ascii "a") (ascii "xyz") = .ok cfgX ∧
    (ascii "a", cfgX) ∈ twoNamespaces ∧
    StreamConfig.stream_key_prefix cfgX <+: ascii "xyz" ∧
    (∀ call ∈ twoNamespaces, call.1 = ascii "a" →
      StreamConfig.stream_key_prefix call.2 <+: ascii "xyz" →
      (StreamConfig.stream_key_prefix call.2).length ≤
        (StreamConfig.stream_key_prefix cfgX).length) ∧
    (∀ call ∈ twoNamespaces,
      call.1 ++ [tilde] ++ StreamConfig.stream_key_prefix call.2 <+:
        ascii "a" ++ [tilde] ++ ascii "xyz" → call.1 = ascii "a") :=
  ⟨rfl,
   configFor_namespace_isolation twoNamespaces (ascii "a") (ascii "xyz") cfgX
     (by decide) (by decide) rfl⟩

/-- C19: key round trip between the write path and recovery. For a namespace without `~`
and any partition key bytes, the split that `reopenPartitions` makes of the composite key
that `findOrCreatePartition` builds gives back exactly the namespace and the partition key;
for a namespace that contains a `~` the split gives a strictly shorter, hence different,
namespace. -/
theorem key_round_trip (ns : Bytes) (pk : SHA1Hash) :
    (tilde ∉ ns →
      reopenPartitions.split (findOrCreatePartition.key ns pk) = some (ns, pk)) ∧
    (tilde ∈ ns →
      ∃ ns' pk', reopenPartitions.split (findOrCreatePartition.key ns pk) = some (ns', pk') ∧
        ns'.length < ns.length ∧ ns' ≠ ns) := by
  have hkey : findOrCreatePartition.key ns pk = ns ++ tilde :: pk.bytes := by
    simp [findOrCreatePartition.key]
  constructor
  · intro hns
    have htake : (ns ++ tilde :: pk.bytes).take ns.length = ns := List.take_left _ _
    have hdrop : ((ns ++ tilde :: pk.bytes).drop (ns.length + 1)).take
        ((ns ++ tilde :: pk.bytes).length - ns.length - 1) = pk.bytes := by
      rw [partition_key_bytes, List.drop_append]; rfl
    simp only [reopenPartitions.split, hkey, find_split ns pk.bytes tilde hns, htake, hdrop]
  · intro hns
    obtain ⟨off, hoff, hlt⟩ := find_inside_namespace ns (tilde :: pk.bytes) hns
    refine ⟨(ns ++ tilde :: pk.bytes).take off,
      ⟨((ns ++ tilde :: pk.bytes).drop (off + 1)).take
        ((ns ++ tilde :: pk.bytes).length - off - 1)⟩,
      by simp only [reopenPartitions.split, hkey, hoff], ?_, ?_⟩
    · rw [List.length_take, List.length_append]
      omega
    · intro heq
      have := congrArg List.length heq
      rw [List.length_take, List.length_append] at this
      omega

/-- Witness of C19: a partition key that holds the byte 0x7E comes back from the split; under
the namespace `"n~s"` the split gives the namespace `"n"`. -/
theorem key_round_trip_witness :
    reopenPartitions.split (findOrCreatePartition.key (ascii "ns1") ⟨ascii "a~b~c"⟩) =
      some (ascii "ns1", ⟨ascii "a~b~c"⟩) ∧
    reopenPartitions.split (findOrCreatePartition.key (ascii "n~s") ⟨k1⟩) =
      some (ascii "n", ⟨ascii "s~" ++ k1⟩) ∧
    ∃ ns' pk', reopenPartitions.split (findOrCreatePartition.key (ascii "n~s") ⟨k1⟩) =
        some (ns', pk') ∧
      ns'.length < (ascii "n~s").length ∧ ns' ≠ ascii "n~s" :=
  ⟨(key_round_trip (ascii "ns1") ⟨ascii "a~b~c"⟩).1 (by decide), by decide,
   (key_round_trip (ascii "n~s") ⟨k1⟩).2 (by decide)⟩

/-- C20: registering a prefix makes every stream key under it resolvable and never
un-resolves anything. After `configurePrefix(ns, cfg)` on any configuration list,
`configFor(ns, sk)` returns a config for every `sk` that begins with
`cfg.stream_key_prefix`; and every `(namespace, stream_key)` that resolved before the call
still resolves after it, to an entry whose composite key is at least as long as the key
of the entry it resolved to before. -/
theorem configurePrefix_monotone (configs_ : List (Bytes × StreamConfig)) (ns : Bytes)
    (cfg : StreamConfig) :
    (∀ sk, StreamConfig.stream_key_prefix cfg <+: sk →
      ∃ config, configFor (configurePrefix configs_ ns cfg) ns sk = .ok config) ∧
    (∀ ns' sk' config, configFor configs_ ns' sk' = .ok config →
      ∃ k k' config', (k, config) ∈ configs_ ∧ k <+: ns' ++ [tilde] ++ sk' ∧
        (∀ e ∈ configs_, e.1 <+: ns' ++ [tilde] ++ sk' → e.1.length ≤ k.length) ∧
        configFor (configurePrefix configs_ ns cfg) ns' sk' = .ok config' ∧
        (k', config') ∈ configurePrefix configs_ ns cfg ∧ k' <+: ns' ++ [tilde] ++ sk' ∧
        k.length ≤ k'.length) := by
  constructor
  · intro sk hsk
    apply configFor_ok_of_match
    refine ⟨(ns ++ [tilde] ++ StreamConfig.stream_key_prefix cfg, cfg), ?_, ?_, ?_⟩
    · simp [configurePrefix]
    · exact (List.prefix_append_right_inj _).2 hsk
    · simp
  · intro ns' sk' config h
    obtain ⟨k, hmem, hk, hpos, hmax⟩ := configFor_ok_mem_longest configs_ ns' sk' config h
    have hmem' : (k, config) ∈ configurePrefix configs_ ns cfg := by
      simp only [configurePrefix]
      exact List.mem_append_left _ hmem
    obtain ⟨config', hok⟩ := configFor_ok_of_match (configurePrefix configs_ ns cfg) ns' sk'
      ⟨(k, config), hmem', hk, hpos⟩
    obtain ⟨k', hmem'', hk', _, hmax'⟩ :=
      configFor_ok_mem_longest (configurePrefix configs_ ns cfg) ns' sk' config' hok
    exact ⟨k, k', config', hmem, hk, hmax, hok, hmem'', hk', hmax' (k, config) hmem' hk⟩

/-- Witness of C20: after `"a~xy"` is registered on top of `"a~x"`, the stream key `"xyz"`
of `"a"` resolves to the longer entry, and `"xq"` still resolves to `"a~x"`. -/
theorem configurePrefix_monotone_witness :
    configFor (configurePrefix (configureAll [(ascii "a", cfgX)]) (ascii "a") cfgXY)
      (ascii "a") (ascii "xyz") = .ok cfgXY ∧
    configFor (configurePrefix (configureAll [(ascii "a", cfgX)]) (ascii "a") cfgXY)
      (ascii "a") (ascii "xq") = .ok cfgX ∧
    ∃ config, configFor (configurePrefix (configureAll [(ascii "a", cfgX)]) (ascii "a") cfgXY)
      (ascii "a") (ascii "xyz") = .ok config :=
  ⟨rfl, rfl,
   (configurePrefix_monotone (configureAll [(ascii "a", cfgX)]) (ascii "a") cfgXY).1
     (ascii "xyz") (by decide)⟩

end TSDB
